import Mathlib

/-!
Verification of the template-driven sequence-event generation engine of
`quick_compare/quick_compare_module.py` (class `QuickCompareModule`), together
with the data model of `development_folder/dev_and_test/data_models.py`.

Shallow-embedding conventions:
* Python strings are Lean `String`s (operated on through their `List Char`
  data); the character-class predicates model the ASCII fragment of the
  Python `re` classes `\w`, `\s`, `\d`, which is the fragment exercised by
  the analyzed inputs.
* A template's `pattern` field (a regex string, pre-compiled by the loader
  per the system contract) is embedded as its compiled form: a `Regex`
  syntax tree.  `Regex.search` implements Python's `re.search` semantics:
  unanchored leftmost search with greedy backtracking and capture groups.
* `sequence_mapping` is `Option SeqMapping`: `none` models a runtime value
  that is not a dict (the annotation `Dict[str, str]` is unenforced), on
  which `.get` raises `AttributeError` - the exception caught by
  `_create_sequence_event`'s handler.
* A `match.groups()` entry is an `Option String`: `none` is Python's
  `None`, returned for a capture group the match did not visit.  The
  `\x7bgroupN\x7d` loop of `_map_entity` converts with `str(group)` (so
  `None` prints as `"None"` and never raises), but the four alias
  `str.replace` lines pass the raw value, and `str.replace` with a `None`
  replacement raises `TypeError` whether or not the placeholder occurs -
  also caught by `_create_sequence_event`'s handler (`mapEntityPy`,
  `createSequenceEvent`).
* Python floats produced by `total_seconds()` are embedded exactly as
  integer microsecond counts (`MetaVal.float micros`): every duration the
  code computes is a whole number of microseconds, so the embedded value
  times 10^-6 is the (idealized, rounding-free) seconds value.
* `datetime.now().year` is an explicit `year : Nat` argument threaded to
  every function that reads the ambient clock.
-/

namespace QuickCompare

/-- ASCII fragment of Python's `\s` / `str.split` whitespace class. -/
def isPySpace (c : Char) : Bool :=
  c = ' ' || c = '\t' || c = '\n' || c = '\r' || c = '\x0b' || c = '\x0c'

/-- ASCII fragment of Python's `\w`: alphanumeric or underscore. -/
def isWordChar (c : Char) : Bool := c.isAlphanum || c = '_'

/-- Does `pat` occur as a contiguous substring? (Python's `in` on `str`.) -/
def hasSub (pat : List Char) : List Char → Bool
  | [] => pat.isPrefixOf []
  | c :: cs => pat.isPrefixOf (c :: cs) || hasSub pat cs

/-- Fuel-indexed scanner for `str.replace`: on a match, consume the
pattern (`(c :: cs).drop pat.length = cs.drop (pat.length - 1)` for a
non-empty pattern) and continue after the replacement; the fuel only
bounds the number of steps, one unit per character reached. -/
def replaceAllAux (pat repl : List Char) : Nat → List Char → List Char
  | _, [] => []
  | 0, s => s
  | fuel + 1, c :: cs =>
    if 0 < pat.length ∧ pat.isPrefixOf (c :: cs) = true then
      repl ++ replaceAllAux pat repl fuel (cs.drop (pat.length - 1))
    else
      c :: replaceAllAux pat repl fuel cs

/-- Replace every (non-overlapping, leftmost-first) occurrence of `pat` by
`repl`, as Python's `str.replace` does for a non-empty pattern. -/
def replaceAllCore (pat repl : List Char) (s : List Char) : List Char :=
  replaceAllAux pat repl s.length s

/-- Python `str.replace` (for the non-empty literal patterns the module uses). -/
def strReplace (s pat repl : String) : String :=
  String.mk (replaceAllCore pat.data repl.data s.data)

/-- Python `pat in s`. -/
def strContains (s pat : String) : Bool := hasSub pat.data s.data

/-! ## Regex engine

Embedded compiled regular expressions, with Python `re` search semantics:
greedy `*`, left-biased alternation, leftmost unanchored search, numbered
capture groups (`group idx r` is the `idx`-th opening parenthesis). -/

inductive Regex where
  | eps
  | char (c : Char)
  | any
  | seq (a b : Regex)
  | alt (a b : Regex)
  | star (a : Regex)
  | group (idx : Nat) (a : Regex)
deriving DecidableEq, Repr

/-- Literal string pattern. -/
def Regex.lit (s : String) : Regex :=
  s.data.foldr (fun c r => Regex.seq (Regex.char c) r) Regex.eps

def Regex.size : Regex → Nat
  | .eps => 1
  | .char _ => 1
  | .any => 1
  | .seq a b => a.size + b.size + 1
  | .alt a b => a.size + b.size + 1
  | .star a => a.size + 1
  | .group _ a => a.size + 1

/-- Largest capture-group number appearing in the pattern. -/
def Regex.maxGroup : Regex → Nat
  | .eps => 0
  | .char _ => 0
  | .any => 0
  | .seq a b => max a.maxGroup b.maxGroup
  | .alt a b => max a.maxGroup b.maxGroup
  | .star a => a.maxGroup
  | .group i a => max i a.maxGroup

/-- All ways (in backtracking priority order) to match a prefix of `s`,
each as (remaining suffix, captures so far).  `fuel` only bounds the
recursion depth; `Regex.search` supplies enough for any match. -/
def rmatch : Nat → Regex → List Char → List (Nat × List Char) →
    List (List Char × List (Nat × List Char))
  | 0, _, _, _ => []
  | _ + 1, .eps, s, caps => [(s, caps)]
  | _ + 1, .char _, [], _ => []
  | _ + 1, .char c, a :: rest, caps => if a = c then [(rest, caps)] else []
  | _ + 1, .any, [], _ => []
  | _ + 1, .any, _ :: rest, caps => [(rest, caps)]
  | fuel + 1, .seq a b, s, caps =>
    (rmatch fuel a s caps).flatMap (fun p => rmatch fuel b p.1 p.2)
  | fuel + 1, .alt a b, s, caps => rmatch fuel a s caps ++ rmatch fuel b s caps
  | fuel + 1, .star a, s, caps =>
    ((rmatch fuel a s caps)).flatMap (fun p =>
      if p.1.length < s.length then rmatch fuel (.star a) p.1 p.2 else []) ++
    [(s, caps)]
  | fuel + 1, .group i a, s, caps =>
    (rmatch fuel a s caps).map (fun p =>
      (p.1, (i, s.take (s.length - p.1.length)) :: p.2))

/-- Try to match at the first position, then at each later start position:
Python's unanchored `re.search` scan. -/
def searchAt (fuel : Nat) (r : Regex) : List Char → Option (List (Nat × List Char))
  | [] => ((rmatch fuel r [] []).head?).map (fun p => p.2)
  | c :: cs =>
    match (rmatch fuel r (c :: cs) []).head? with
    | some p => some p.2
    | none => searchAt fuel r cs

/-- `re.search(pattern, s)` followed by `match.groups()`: `none` when there
is no match anywhere, otherwise the ordered list of groups `1 .. maxGroup`,
each `some` captured string, or `none` for a group the match did not visit
(Python's `None`). -/
def Regex.search (r : Regex) (s : String) : Option (List (Option String)) :=
  (searchAt ((r.size + 1) * (s.length + 2) + 1) r s.data).map (fun caps =>
    (List.range r.maxGroup).map (fun j =>
      match caps.find? (fun kv => kv.1 = j + 1) with
      | some kv => some (String.mk kv.2)
      | none => none))

/-! ## Data model (`data_models.py`) -/

/-- `LogLevel` enum. -/
inductive LogLevel where
  | VERBOSE
  | DEBUG
  | INFO
  | WARNING
  | ERROR
  | FATAL
deriving DecidableEq, Repr

/-- The `.value` of each `LogLevel` member. -/
def LogLevel.value : LogLevel → String
  | .VERBOSE => "V"
  | .DEBUG => "D"
  | .INFO => "I"
  | .WARNING => "W"
  | .ERROR => "E"
  | .FATAL => "F"

/-- `LogEntry` dataclass. -/
structure LogEntry where
  timestamp : String
  level : LogLevel
  tag : String
  message : String
  original_line : String
  line_number : Int
deriving DecidableEq, Repr

/-- The `sequence_mapping` dict of a template, holding the slots the module
reads with `.get('from', ...)`, `.get('to', ...)`, `.get('message', ...)`;
`none` in a slot models an absent dict key. -/
structure SeqMapping where
  fromSlot : Option String
  toSlot : Option String
  messageSlot : Option String
deriving DecidableEq, Repr

/-- `Template` dataclass.  `pattern` is the compiled form of the regex
string; `sequence_mapping` is `none` when the runtime value is not a dict
(on which `.get` raises, see the module docstring above). -/
structure Template where
  name : String
  pattern : Regex
  sequence_mapping : Option SeqMapping
  priority : Int
  description : String := ""
deriving DecidableEq, Repr

/-- A value stored in the open `metadata` dict of a `SequenceEvent`.
`strList` holds a `match.groups()` tuple, whose entries are `None`
(here `none`) for capture groups the match did not visit.
`float micros` embeds the Python float produced by `total_seconds()` as an
exact count of microseconds (the float value is `micros / 10^6` seconds). -/
inductive MetaVal where
  | str (v : String)
  | int (v : Int)
  | strList (v : List (Option String))
  | float (micros : Int)
deriving DecidableEq, Repr

/-- An insertion-ordered string-keyed dict, as Python dicts are. -/
abbrev MetaDict := List (String × MetaVal)

/-- `d[k] = v` on a Python dict: overwrite in place, else append. -/
def dictSet (m : MetaDict) (k : String) (v : MetaVal) : MetaDict :=
  if m.any (fun kv => kv.1 = k) then
    m.map (fun kv => if kv.1 = k then (k, v) else kv)
  else m ++ [(k, v)]

/-- `d.get(k)` on a Python dict (keys are unique, so the first hit is it). -/
def dictGet : MetaDict → String → Option MetaVal
  | [], _ => none
  | kv :: m, k => if kv.1 = k then some kv.2 else dictGet m k

/-- `SequenceEvent` dataclass. -/
structure SequenceEvent where
  timestamp : String
  from_entity : String
  to_entity : String
  message : String
  event_type : String
  metadata : MetaDict
  log_entry : Option LogEntry := none
deriving DecidableEq, Repr

/-! ## Entity Mapper (`_map_entity`) -/

/-- Body of the `for i, group in enumerate(groups)` loop of `_map_entity`:
replace the placeholder `{group(i+1)}` by group `i`'s value when the
placeholder occurs in the intermediate result, then continue. -/
def substGroupsAux : String → Nat → List String → String
  | r, _, [] => r
  | r, i, g :: gs =>
    let placeholder := "\x7bgroup" ++ toString (i + 1) ++ "\x7d"
    substGroupsAux (if strContains r placeholder then strReplace r placeholder g else r)
      (i + 1) gs

/-- First replacement loop of `_map_entity` (0-based enumeration). -/
def substGroups (mapping : String) (groups : List String) : String :=
  substGroupsAux mapping 0 groups

/-- Second replacement block of `_map_entity`: the four legacy aliases,
each bound to groups 1-4 when present and to the empty string otherwise
(`groups[i] if len(groups) > i else ""`). -/
def substAliases (result : String) (groups : List String) : String :=
  let r1 := strReplace result "\x7btimestamp\x7d" (groups.getD 0 "")
  let r2 := strReplace r1 "\x7blevel\x7d" (groups.getD 1 "")
  let r3 := strReplace r2 "\x7btag\x7d" (groups.getD 2 "")
  strReplace r3 "\x7bmessage\x7d" (groups.getD 3 "")

/-- The whole substitution phase of `_map_entity` (before sanitization). -/
def substFull (mapping : String) (groups : List String) : String :=
  substAliases (substGroups mapping groups) groups

/-- `re.sub(r'[^\w\s-]', '', s)`: keep only word chars, whitespace, hyphens. -/
def sanitizeChars (l : List Char) : List Char :=
  l.filter (fun c => isWordChar c || isPySpace c || c = '-')

/-- Remove a trailing whitespace run (the right half of `str.strip`). -/
def rstripWs : List Char → List Char
  | [] => []
  | c :: cs =>
    let r := rstripWs cs
    if r.isEmpty && isPySpace c then [] else c :: r

/-- Python `str.strip()`. -/
def pyStrip (l : List Char) : List Char := rstripWs (l.dropWhile isPySpace)

/-- State machine for `re.sub(r'\s+', '_', s)`: `inRun` records whether
the scanner is inside a whitespace run whose `_` was already emitted. -/
def collapseWsAux : Bool → List Char → List Char
  | _, [] => []
  | inRun, c :: cs =>
    if isPySpace c then
      if inRun then collapseWsAux true cs
      else '_' :: collapseWsAux true cs
    else c :: collapseWsAux false cs

/-- `re.sub(r'\s+', '_', s)`: collapse every whitespace run to one `_`. -/
def collapseWs (l : List Char) : List Char := collapseWsAux false l

/-- The sanitization tail of `_map_entity`:
`result = re.sub(r'[^\w\s-]', '', result); result = re.sub(r'\s+', '_', result.strip())`. -/
def sanitizeMermaid (s : String) : String :=
  String.mk (collapseWs (pyStrip (sanitizeChars s.data)))

/-- `QuickCompareModule._map_entity` restricted to a `match.groups()`
tuple in which every group participated (no `None` entries); the full
fallible function on raw group tuples is `mapEntityPy` below, and
`mapEntityPy_map_some` identifies this as its restriction. -/
def mapEntity (mapping : String) (groups : List String) : String :=
  if mapping = "" then "Unknown"
  else
    let substituted := substFull mapping groups
    let sanitized := sanitizeMermaid substituted
    if sanitized = "" then "Unknown" else sanitized

/-- Python `str(group)` applied to a `match.groups()` entry: the string
itself when the group participated, the literal `"None"` for `None`. -/
def pyStr : Option String → String
  | some s => s
  | none => "None"

/-- The second replacement argument of an alias line of `_map_entity`,
`groups[i] if len(groups) > i else ""`, together with what `str.replace`
does with it: index out of range gives `""` (no raise); a participating
group gives its string; a `None` group makes `str.replace` raise
`TypeError` (modelled as `none`) regardless of whether the placeholder
occurs, since the argument is passed unconverted. -/
def aliasValue (groups : List (Option String)) (i : Nat) : Option String :=
  match groups[i]? with
  | none => some ""
  | some g =>
    match g with
    | some s => some s
    | none => none

/-- The four alias replaces of `_map_entity` on a raw group tuple, in
source order; the first `None` group among positions 0-3 raises. -/
def substAliasesPy (result : String) (groups : List (Option String)) :
    Option String :=
  match aliasValue groups 0 with
  | none => none
  | some a0 =>
    match aliasValue groups 1 with
    | none => none
    | some a1 =>
      match aliasValue groups 2 with
      | none => none
      | some a2 =>
        match aliasValue groups 3 with
        | none => none
        | some a3 =>
          some (strReplace (strReplace (strReplace
            (strReplace result "\x7btimestamp\x7d" a0)
            "\x7blevel\x7d" a1) "\x7btag\x7d" a2) "\x7bmessage\x7d" a3)

/-- `QuickCompareModule._map_entity` on the raw `match.groups()` tuple:
the `\x7bgroupN\x7d` loop substitutes `str(group)` (never raising), then
the alias block raises `TypeError` (`none`) when a `None` group among
positions 0-3 reaches an unconditional `str.replace`; otherwise the
sanitized result, with the `"Unknown"` fallbacks of the source. -/
def mapEntityPy (mapping : String) (groups : List (Option String)) :
    Option String :=
  if mapping = "" then some "Unknown"
  else
    match substAliasesPy (substGroups mapping (groups.map pyStr)) groups with
    | none => none
    | some substituted =>
      let sanitized := sanitizeMermaid substituted
      some (if sanitized = "" then "Unknown" else sanitized)

/-! ## Event creation and the per-record template loop -/

/-- `QuickCompareModule._create_sequence_event`.  Returns `none` when the
construction raises and the `except` handler returns `None`: either
`sequence_mapping` is not a dict (the first `.get` raises
`AttributeError`), or one of the three `_map_entity` calls — evaluated in
source order — raises `TypeError` on a `None` capture group. -/
def createSequenceEvent (log_entry : LogEntry) (template : Template)
    (groups : List (Option String)) : Option SequenceEvent :=
  match template.sequence_mapping with
  | none => none
  | some sm =>
    match mapEntityPy (sm.fromSlot.getD "Unknown") groups with
    | none => none
    | some from_entity =>
      match mapEntityPy (sm.toSlot.getD "Unknown") groups with
      | none => none
      | some to_entity =>
        match mapEntityPy (sm.messageSlot.getD "Event") groups with
        | none => none
        | some message =>
          some
            { timestamp := log_entry.timestamp
              from_entity := from_entity
              to_entity := to_entity
              message := message
              event_type := template.name
              metadata :=
                [("template_name", .str template.name),
                 ("template_priority", .int template.priority),
                 ("log_level", .str log_entry.level.value),
                 ("log_tag", .str log_entry.tag),
                 ("groups", .strList groups)]
              log_entry := some log_entry }

/-- The inner `for template in sorted(templates, ...)` loop body for one log
entry: first template (in the order given) whose pattern matches the message
AND whose event construction succeeds; a failed construction falls through
to the next template (the code only `break`s when `sequence_event` is truthy). -/
def tryTemplates (log_entry : LogEntry) : List Template → Option SequenceEvent
  | [] => none
  | t :: ts =>
    match Regex.search t.pattern log_entry.message with
    | some groups =>
      match createSequenceEvent log_entry t groups with
      | some ev => some ev
      | none => tryTemplates log_entry ts
    | none => tryTemplates log_entry ts

/-- The outer `for log_entry in log_entries` loop: accumulates the created
events (in input order) and the entries for which no event was created
(`unmatched_entries`). -/
def generateEventsAndUnmatched (sortedTemplates : List Template) :
    List LogEntry → List SequenceEvent × List LogEntry
  | [] => ([], [])
  | e :: es =>
    let rest := generateEventsAndUnmatched sortedTemplates es
    match tryTemplates e sortedTemplates with
    | some ev => (ev :: rest.1, rest.2)
    | none => (rest.1, e :: rest.2)

/-! ## Stable sorting

Python's `sorted` / `list.sort` are stable.  `stableSortBy le` is the
(unique) stable ascending sort for a total preorder `le`: each element is
inserted after the strictly smaller ones and before the equivalent ones
already placed by earlier-in-input elements. -/

/-- Strictly-below in the preorder `le`. -/
def sLt (le : α → α → Bool) (a b : α) : Bool := le a b && !(le b a)

/-- Insert `a` (an earlier-in-input element) before every element of the
already-sorted list that is not strictly below it. -/
def insertStable (le : α → α → Bool) (a : α) : List α → List α
  | [] => [a]
  | b :: l => if sLt le b a then b :: insertStable le a l else a :: b :: l

/-- Stable insertion sort; elements are processed back-to-front so each is
placed before its equals coming later in the input. -/
def stableSortBy (le : α → α → Bool) : List α → List α
  | [] => []
  | a :: l => insertStable le a (stableSortBy le l)

/-- Lexicographic (code-point) strict comparison of char lists, matching
Python `str.__lt__`. -/
def listLtChars : List Char → List Char → Bool
  | [], [] => false
  | [], _ :: _ => true
  | _ :: _, [] => false
  | a :: as, b :: bs => if a = b then listLtChars as bs else decide (a.toNat < b.toNat)

/-- Python string `<`. -/
def strLtB (s t : String) : Bool := listLtChars s.data t.data

/-- Python string `<=` (total order, so `s <= t` iff `not (t < s)`). -/
def strLeB (s t : String) : Bool := !(strLtB t s)

/-- Key comparison for `sorted(templates, key=lambda t: t.priority)`. -/
def templateLe (a b : Template) : Bool := decide (a.priority ≤ b.priority)

/-- Key comparison for `sequence_events.sort(key=lambda e: e.timestamp)`. -/
def eventLe (a b : SequenceEvent) : Bool := strLeB a.timestamp b.timestamp

/-! ## Timestamp parsing (`_parse_timestamp`)

`_parse_timestamp` first checks `re.match(r'\d{2}-\d{2}\s+\d{2}:\d{2}:\d{2}\.\d{3}', s)`
(a prefix match), then runs
`datetime.strptime(f"{datetime.now().year}-{s}", "%Y-%m-%d %H:%M:%S.%f")`,
which must consume the whole string; any failure yields `None`.  Combined,
a string parses iff it is exactly
`MM-DD<ws+>HH:MM:SS.<3-to-6 digits>` with `01<=MM<=12`,
`01<=DD<=days_in_month(year, MM)`, `HH<=23`, `MM<=59`, `SS<=59`
(`strptime`'s `%S` also admits 60-61 but `datetime(...)` then raises).
The fraction digits are microseconds, zero-padded on the right by `%f`. -/

/-- A parsed timestamp (the year is the ambient `datetime.now().year`). -/
structure PyDateTime where
  month : Nat
  day : Nat
  hour : Nat
  minute : Nat
  second : Nat
  micro : Nat
deriving DecidableEq, Repr

/-- Gregorian leap-year rule, as `datetime` applies it. -/
def isLeapYear (y : Nat) : Bool := y % 4 = 0 && (y % 100 ≠ 0 || y % 400 = 0)

def daysInMonth (y m : Nat) : Nat :=
  if m = 2 then (if isLeapYear y then 29 else 28)
  else if m = 4 || m = 6 || m = 9 || m = 11 then 30 else 31

/-- 1-based ordinal of a (month, day) within year `y`. -/
def dayOfYear (y m d : Nat) : Nat :=
  ((List.range (m - 1)).map (fun i => daysInMonth y (i + 1))).sum + d

def digitVal (c : Char) : Nat := c.toNat - 48

def twoDigitNat (a b : Char) : Nat := digitVal a * 10 + digitVal b

/-- Core of `_parse_timestamp` on the character list of the input string. -/
def parseTimestampChars (year : Nat) : List Char → Option PyDateTime
  | mo1 :: mo2 :: '-' :: d1 :: d2 :: rest =>
    if mo1.isDigit && mo2.isDigit && d1.isDigit && d2.isDigit &&
        !(rest.takeWhile isPySpace).isEmpty then
      match rest.dropWhile isPySpace with
      | h1 :: h2 :: ':' :: mi1 :: mi2 :: ':' :: s1 :: s2 :: '.' :: frac =>
        if h1.isDigit && h2.isDigit && mi1.isDigit && mi2.isDigit &&
            s1.isDigit && s2.isDigit && frac.all Char.isDigit &&
            3 ≤ frac.length && frac.length ≤ 6 then
          let month := twoDigitNat mo1 mo2
          let day := twoDigitNat d1 d2
          let hour := twoDigitNat h1 h2
          let minute := twoDigitNat mi1 mi2
          let second := twoDigitNat s1 s2
          if 1 ≤ month && month ≤ 12 && 1 ≤ day && day ≤ daysInMonth year month &&
              hour ≤ 23 && minute ≤ 59 && second ≤ 59 then
            some
              { month, day, hour, minute, second
                micro := (frac.foldl (fun n c => n * 10 + digitVal c) 0) *
                  10 ^ (6 - frac.length) }
          else none
        else none
      | _ => none
    else none
  | _ => none

/-- `QuickCompareModule._parse_timestamp` (the ambient clock year made an
explicit argument). -/
def parseTimestamp (year : Nat) (timestamp_str : String) : Option PyDateTime :=
  parseTimestampChars year timestamp_str.data

/-- Microseconds from the start of year `year` (what the embedded
`datetime` value measures, up to a constant offset that cancels in
differences taken within one call). -/
def timestampMicros (year : Nat) (t : PyDateTime) : Int :=
  ((dayOfYear year t.month t.day * 86400 + t.hour * 3600 + t.minute * 60 +
      t.second) * 1000000 + t.micro : Nat)

/-- `(curr_time - prev_time).total_seconds()`, embedded exactly as a count
of microseconds (the Python float equals this value divided by 10^6). -/
def timeDeltaMicros (year : Nat) (prev curr : PyDateTime) : Int :=
  timestampMicros year curr - timestampMicros year prev

/-! ## Enrichment (`_enrich_events_with_metadata`) -/

/-- `event.metadata['sequence_number'] = i + 1` for the event at index `i`. -/
def withSeqNum (i : Nat) (e : SequenceEvent) : SequenceEvent :=
  { e with metadata := dictSet e.metadata "sequence_number" (.int (i + 1)) }

/-- First enrichment loop: `event.metadata['sequence_number'] = i + 1`. -/
def addSequenceNumbers (events : List SequenceEvent) : List SequenceEvent :=
  events.enum.map (fun p => withSeqNum p.1 p.2)

/-- Body of the second enrichment loop at index `i`: when `i >= 1` and both
`events[i-1].timestamp` and the current timestamp parse, set
`metadata['time_since_previous']` to the duration between them. -/
def timingUpdate (year : Nat) (events : List SequenceEvent) (i : Nat)
    (e : SequenceEvent) : SequenceEvent :=
  if i = 0 then e
  else
    match events[i - 1]? with
    | none => e
    | some prev =>
      match parseTimestamp year prev.timestamp, parseTimestamp year e.timestamp with
      | some pt, some ct =>
        { e with metadata :=
            (dictSet e.metadata "time_since_previous"
              (.float (timeDeltaMicros year pt ct))) }
      | _, _ => e

/-- Second enrichment loop, `for i in range(1, len(events))`.  (It reads
only timestamps of its input, which the first loop does not touch, so
running it after `addSequenceNumbers` matches the in-place code.) -/
def addTimingInfo (year : Nat) (events : List SequenceEvent) : List SequenceEvent :=
  events.enum.map (fun p => timingUpdate year events p.1 p.2)

/-- `QuickCompareModule._enrich_events_with_metadata`. -/
def enrichEventsWithMetadata (year : Nat) (events : List SequenceEvent) :
    List SequenceEvent :=
  addTimingInfo year (addSequenceNumbers events)

/-! ## The core operation (`generate_sequence_events`) -/

/-- `QuickCompareModule.generate_sequence_events`.  The code re-evaluates
`sorted(templates, key=lambda t: t.priority)` for every entry; the sort is
pure, so it is hoisted.  Logging calls have no effect on the result. -/
def generate_sequence_events (year : Nat) (log_entries : List LogEntry)
    (templates : List Template) : List SequenceEvent :=
  let sortedTemplates := stableSortBy templateLe templates
  let collected := generateEventsAndUnmatched sortedTemplates log_entries
  enrichEventsWithMetadata year (stableSortBy eventLe collected.1)

/-! ## Specification-side definitions

These follow the wording of the specification and of the claims under
check; theorems below compare them with the source-derived definitions. -/

/-- One step of `bestEarliest`: compare candidate `a` (earlier in input)
against the best of the later elements; `a` wins unless the later best is
strictly below it. -/
def bestStep (le : α → α → Bool) (q : α → Bool) (a : α) : Option α → Option α
  | none => if q a then some a else none
  | some u => if q a && le a u then some a else some u

/-- Among the elements satisfying `q`, the one that is minimal for the
preorder `le`, with the **earlier-in-input** element winning whenever the
two compare equal (`le` both ways): scanning from the right, a later
element displaces the current best only when it is strictly below it. -/
def bestEarliest (le : α → α → Bool) (q : α → Bool) : List α → Option α
  | [] => none
  | a :: l => bestStep le q a (bestEarliest le q l)

/-- The claim's selection policy: among the templates whose pattern matches
the message (unanchored search), the one with the lowest `priority`; among
equal priorities, the one appearing earlier in the original input order. -/
def selectTemplate (msg : String) (templates : List Template) : Option Template :=
  bestEarliest templateLe (fun t => (Regex.search t.pattern msg).isSome) templates

/-- Spec wording of the `{groupN}` phase: for N = 1, 2, ... substitute the
placeholder of each captured group by its value (a placeholder whose N
exceeds the available groups is left alone - there is no such N here). -/
def substGroupsSpec : String → Nat → List String → String
  | r, _, [] => r
  | r, n, g :: gs =>
    substGroupsSpec (strReplace r ("\x7bgroup" ++ toString n ++ "\x7d") g) (n + 1) gs

/-- Spec wording of the whole substitution phase: every existing `{groupN}`
first, then the four legacy aliases. -/
def substFullSpec (mapping : String) (groups : List String) : String :=
  substAliases (substGroupsSpec mapping 1 groups) groups

/-- Split on whitespace runs, dropping empty words (Python `str.split()`). -/
def splitWs : List Char → List (List Char)
  | [] => []
  | c :: cs =>
    if isPySpace c then splitWs cs
    else
      (c :: cs.takeWhile (fun d => !isPySpace d)) ::
        splitWs (cs.dropWhile (fun d => !isPySpace d))
termination_by l => l.length
decreasing_by
  · simp only [List.length_cons]
    omega
  · have := List.Sublist.length_le (List.dropWhile_sublist
      (l := cs) (fun d => !isPySpace d))
    simp only [List.length_cons]
    omega

/-- Join words with single underscores. -/
def joinU : List (List Char) → List Char
  | [] => []
  | [w] => w
  | w :: ws => w ++ '_' :: joinU ws

/-- The Entity Mapper result exactly as claim C4 words it: strip every
character that is **not alphanumeric, whitespace, or hyphen** (so, per the
claim, also underscores), trim, collapse whitespace runs to `_`, with the
`"Unknown"` fallbacks.  Compared against `mapEntity` below. -/
def mapEntityClaimC4 (mapping : String) (groups : List String) : String :=
  if mapping = "" then "Unknown"
  else
    let kept := (substFull mapping groups).data.filter
      (fun c => c.isAlphanum || isPySpace c || c = '-')
    let collapsed := collapseWs (pyStrip kept)
    if collapsed.isEmpty then "Unknown" else String.mk collapsed

/-- The amended C4 pipeline (underscores are also kept, since Python `\w`
includes them), with the trim-and-collapse step phrased as
split-on-whitespace-then-join-with-underscores. -/
def mapEntityAmendedC4 (mapping : String) (groups : List String) : String :=
  if mapping = "" then "Unknown"
  else
    let kept := sanitizeChars (substFull mapping groups).data
    let ws := splitWs kept
    if ws.isEmpty then "Unknown" else String.mk (joinU ws)

/-- A character allowed in a finished entity/message identifier. -/
def safeChar (c : Char) : Bool := c.isAlphanum || c = '_' || c = '-'

/-- Non-empty, whitespace-free, only letters/digits/underscore/hyphen. -/
def isSafeIdent (s : String) : Prop :=
  s ≠ "" ∧ ∀ c ∈ s.data, safeChar c = true ∧ isPySpace c = false

/-- The fields of an event other than its (enrichment-mutated) metadata;
`log_entry` identifies the originating record. -/
def eventCore (e : SequenceEvent) :
    String × String × String × String × String × Option LogEntry :=
  (e.timestamp, e.from_entity, e.to_entity, e.message, e.event_type, e.log_entry)

/-- Drop the (year-dependent) `time_since_previous` metadata entry. -/
def stripTiming (e : SequenceEvent) : SequenceEvent :=
  { e with metadata := e.metadata.filter (fun kv => kv.1 != "time_since_previous") }

/-! ## Concrete fixtures (used by witnesses and counterexamples) -/

def dummyEvent : SequenceEvent :=
  { timestamp := "", from_entity := "", to_entity := "", message := ""
    event_type := "", metadata := [], log_entry := none }

def stdMapping : SeqMapping :=
  { fromSlot := some "System", toSlot := some "Camera", messageSlot := some "Start" }

def mkEntry (ts msg : String) (n : Int) : LogEntry :=
  { timestamp := ts, level := .INFO, tag := "CameraService", message := msg
    original_line := msg, line_number := n }

def tmplLow : Template :=
  { name := "Low", pattern := .lit "x", sequence_mapping := some stdMapping, priority := 5 }

def tmplHigh : Template :=
  { name := "High", pattern := .lit "x", sequence_mapping := some stdMapping, priority := 1 }

def tmplZzz : Template :=
  { name := "Zzz", pattern := .lit "zzz", sequence_mapping := some stdMapping, priority := 1 }

def tmplCam : Template :=
  { name := "CamEvent", pattern := .lit "Cam", sequence_mapping := some stdMapping, priority := 1 }

/-- A template whose `sequence_mapping` is not a dict: event construction
for it raises (and is caught), cf. `createSequenceEvent`. -/
def tmplBroken : Template :=
  { name := "Broken", pattern := .lit "x", sequence_mapping := none, priority := 1 }

def tmplFallback : Template :=
  { name := "Fallback", pattern := .lit "x", sequence_mapping := some stdMapping, priority := 2 }

/-- Priority-1 template with pattern `(z)|b`: on message `"b"` it matches
via the right alternative, so `match.groups()` is `(None,)` - group 1 did
not participate - and event construction raises `TypeError` in the alias
replaces (caught by the handler). -/
def tmplAltGroup : Template :=
  { name := "First", pattern := .alt (.group 1 (.char 'z')) (.char 'b'),
    sequence_mapping := some stdMapping, priority := 1 }

/-- Priority-2 template with pattern `b` (no groups): construction succeeds. -/
def tmplPlainB : Template :=
  { name := "Second", pattern := .char 'b', sequence_mapping := some stdMapping,
    priority := 2 }

def entryB : LogEntry := mkEntry "09-17 10:30:15.000" "b" 1

def entryX : LogEntry := mkEntry "09-17 10:30:15.000" "x" 1

def entryAbc : LogEntry := mkEntry "09-17 10:30:15.000" "abc" 1

def entriesP9 : List LogEntry :=
  [mkEntry "09-17 10:30:15.000" "Cam a" 1,
   mkEntry "09-17 10:30:15.500" "Cam b" 2,
   mkEntry "09-17 10:30:16.000" "Cam c" 3]

/-- Two records spanning the February-March boundary: the gap between them
depends on whether the ambient clock year is a leap year. -/
def entriesLeap : List LogEntry :=
  [mkEntry "02-28 12:00:00.000" "Cam a" 1,
   mkEntry "03-01 12:00:00.000" "Cam b" 2]

/-! # Theorems -/

/-! ## Stable sort: structure, membership, sortedness, stability -/

theorem insertStable_eq (le : α → α → Bool) (a : α) (l : List α) :
    insertStable le a l =
      l.takeWhile (fun b => sLt le b a) ++ a :: l.dropWhile (fun b => sLt le b a) := by
  induction l with
  | nil => rfl
  | cons b bs ih =>
    by_cases h : sLt le b a = true
    · simp only [insertStable, h, if_true, List.takeWhile_cons, List.dropWhile_cons,
        List.cons_append, ih]
    · simp only [insertStable, h, if_false, Bool.false_eq_true, List.takeWhile_cons,
        List.dropWhile_cons, List.nil_append]

theorem mem_insertStable (le : α → α → Bool) (a x : α) (l : List α) :
    x ∈ insertStable le a l ↔ x = a ∨ x ∈ l := by
  rw [insertStable_eq]
  constructor
  · intro hx
    rcases List.mem_append.mp hx with h | h
    · exact Or.inr ((List.takeWhile_append_dropWhile (fun b => sLt le b a) l) ▸
        List.mem_append.mpr (Or.inl h))
    · rcases List.mem_cons.mp h with h | h
      · exact Or.inl h
      · exact Or.inr ((List.takeWhile_append_dropWhile (fun b => sLt le b a) l) ▸
        List.mem_append.mpr (Or.inr h))
  · intro hx
    rcases hx with h | h
    · exact List.mem_append.mpr (Or.inr (List.mem_cons.mpr (Or.inl h)))
    · rw [← List.takeWhile_append_dropWhile (fun b => sLt le b a) l] at h
      rcases List.mem_append.mp h with h | h
      · exact List.mem_append.mpr (Or.inl h)
      · exact List.mem_append.mpr (Or.inr (List.mem_cons.mpr (Or.inr h)))

theorem mem_stableSortBy (le : α → α → Bool) (x : α) (l : List α) :
    x ∈ stableSortBy le l ↔ x ∈ l := by
  induction l with
  | nil => simp [stableSortBy]
  | cons a bs ih =>
    simp only [stableSortBy, mem_insertStable, ih, List.mem_cons]

/-- After the strictly-smaller prefix, everything is at or above `a`. -/
theorem dropWhile_sLt_le (le : α → α → Bool)
    (htot : ∀ x y, le x y = true ∨ le y x = true)
    (htrans : ∀ x y z, le x y = true → le y z = true → le x z = true)
    (a : α) : ∀ l : List α, l.Pairwise (fun x y => le x y = true) →
    ∀ u ∈ l.dropWhile (fun b => sLt le b a), le a u = true := by
  intro l
  induction l with
  | nil => intro _ u hu; simp at hu
  | cons b bs ih =>
    intro hp u hu
    rcases List.pairwise_cons.mp hp with ⟨hb, hbs⟩
    rw [List.dropWhile_cons] at hu
    by_cases h : sLt le b a = true
    · rw [if_pos h] at hu
      exact ih hbs u hu
    · rw [if_neg h] at hu
      have hab : le a b = true := by
        by_cases hab2 : le a b = true
        · exact hab2
        · exfalso
          have hba : le b a = true := by
            rcases htot a b with h1 | h1
            · exact absurd h1 hab2
            · exact h1
          apply h
          simp only [sLt, hba, Bool.true_and, Bool.not_eq_true']
          exact Bool.not_eq_true (le a b) ▸ (by simp [hab2])
      rcases List.mem_cons.mp hu with rfl | hu2
      · exact hab
      · exact htrans a b u hab (hb u hu2)

theorem pairwise_insertStable (le : α → α → Bool)
    (htot : ∀ x y, le x y = true ∨ le y x = true)
    (htrans : ∀ x y z, le x y = true → le y z = true → le x z = true)
    (a : α) (l : List α) (hp : l.Pairwise (fun x y => le x y = true)) :
    (insertStable le a l).Pairwise (fun x y => le x y = true) := by
  rw [insertStable_eq]
  have hsplit := List.takeWhile_append_dropWhile (fun b => sLt le b a) l
  refine List.pairwise_append.mpr ⟨?_, ?_, ?_⟩
  · exact List.Pairwise.sublist (List.takeWhile_sublist _) hp
  · refine List.pairwise_cons.mpr ⟨?_, ?_⟩
    · exact dropWhile_sLt_le le htot htrans a l hp
    · exact List.Pairwise.sublist (List.dropWhile_sublist _) hp
  · intro x hx y hy
    have hxa : le x a = true := by
      have := List.mem_takeWhile_imp hx
      simp only [sLt, Bool.and_eq_true] at this
      exact this.1
    rcases List.mem_cons.mp hy with rfl | hy2
    · exact hxa
    · exact htrans x a y hxa (dropWhile_sLt_le le htot htrans a l hp y hy2)

theorem pairwise_stableSortBy (le : α → α → Bool)
    (htot : ∀ x y, le x y = true ∨ le y x = true)
    (htrans : ∀ x y z, le x y = true → le y z = true → le x z = true)
    (l : List α) :
    (stableSortBy le l).Pairwise (fun x y => le x y = true) := by
  induction l with
  | nil => exact List.Pairwise.nil
  | cons a bs ih => exact pairwise_insertStable le htot htrans a _ ih

/-- Stability: filtering to any class of pairwise non-strictly-comparable
elements (e.g. an equal-keys class) commutes with the stable sort. -/
theorem filter_stableSortBy (le : α → α → Bool) (p : α → Bool)
    (hp : ∀ x y, p x = true → p y = true → sLt le x y = false) (l : List α) :
    (stableSortBy le l).filter p = l.filter p := by
  induction l with
  | nil => rfl
  | cons a bs ih =>
    have hsplit := List.takeWhile_append_dropWhile (fun b => sLt le b a) (stableSortBy le bs)
    show (insertStable le a (stableSortBy le bs)).filter p = (a :: bs).filter p
    have h2 : ((stableSortBy le bs).takeWhile (fun b => sLt le b a)).filter p ++
        ((stableSortBy le bs).dropWhile (fun b => sLt le b a)).filter p = bs.filter p := by
      rw [← List.filter_append, hsplit, ih]
    rw [insertStable_eq, List.filter_append, List.filter_cons, List.filter_cons]
    by_cases hpa : p a = true
    · have htake : ((stableSortBy le bs).takeWhile (fun b => sLt le b a)).filter p = [] := by
        rw [List.filter_eq_nil_iff]
        intro b hb hpb
        have hlt := List.mem_takeWhile_imp hb
        rw [hp b a hpb hpa] at hlt
        exact Bool.false_ne_true hlt
      rw [htake, List.nil_append] at h2
      rw [htake, if_pos hpa, if_pos hpa, h2, List.nil_append]
    · rw [if_neg hpa, if_neg hpa, h2]

/-! ## First match in the stable sort = lowest-priority earliest match -/

theorem find?_congr_mem {p q : α → Bool} :
    ∀ l : List α, (∀ x ∈ l, p x = q x) → l.find? p = l.find? q := by
  intro l
  induction l with
  | nil => intro _; rfl
  | cons a bs ih =>
    intro h
    have ha := h a (List.mem_cons_self a bs)
    rw [List.find?_cons, List.find?_cons, ha, ih (fun x hx => h x (List.mem_cons_of_mem a hx))]

theorem find?_insertStable (le : α → α → Bool) (q : α → Bool)
    (htot : ∀ x y, le x y = true ∨ le y x = true)
    (htrans : ∀ x y z, le x y = true → le y z = true → le x z = true)
    (a : α) (l : List α) (hp : l.Pairwise (fun x y => le x y = true)) :
    (insertStable le a l).find? q =
      if q a = true then (l.find? (fun b => q b && sLt le b a)).or (some a)
      else l.find? q := by
  have hsplit := List.takeWhile_append_dropWhile (fun b => sLt le b a) l
  have htake : (l.takeWhile (fun b => sLt le b a)).find? (fun b => q b && sLt le b a)
      = (l.takeWhile (fun b => sLt le b a)).find? q := by
    apply find?_congr_mem
    intro x hx
    rw [List.mem_takeWhile_imp hx, Bool.and_true]
  have hdropn : (l.dropWhile (fun b => sLt le b a)).find? (fun b => q b && sLt le b a)
      = none := by
    rw [List.find?_eq_none]
    intro x hx hcon
    rcases Bool.and_eq_true _ _ |>.mp hcon with ⟨_, hsx⟩
    have hax := dropWhile_sLt_le le htot htrans a l hp x hx
    rw [sLt, hax] at hsx
    simp at hsx
  rw [insertStable_eq, List.find?_append, List.find?_cons]
  by_cases hq : q a = true
  · rw [if_pos hq]
    simp only [hq]
    have hl : l.find? (fun b => q b && sLt le b a) =
        (l.takeWhile (fun b => sLt le b a)).find? q := by
      conv_lhs => rw [← hsplit]
      rw [List.find?_append, htake, hdropn, Option.or_none]
    rw [hl]
  · have hqf : q a = false := by
      cases hqa : q a
      · rfl
      · exact absurd hqa hq
    rw [if_neg hq]
    simp only [hqf]
    conv_rhs => rw [← hsplit]
    rw [List.find?_append]

theorem bestEarliest_sound (le : α → α → Bool) (q : α → Bool) :
    ∀ l : List α, ∀ t, bestEarliest le q l = some t → t ∈ l ∧ q t = true := by
  intro l
  induction l with
  | nil => intro t h; exact absurd h (by simp [bestEarliest])
  | cons a bs ih =>
    intro t h
    rw [show bestEarliest le q (a :: bs) = bestStep le q a (bestEarliest le q bs) from rfl]
      at h
    cases hb : bestEarliest le q bs with
    | none =>
      rw [hb] at h
      simp only [bestStep] at h
      by_cases hq : q a = true
      · rw [if_pos hq] at h
        cases h
        exact ⟨List.mem_cons_self a bs, hq⟩
      · rw [if_neg hq] at h
        cases h
    | some u =>
      rw [hb] at h
      simp only [bestStep] at h
      by_cases hcond : (q a && le a u) = true
      · rw [if_pos hcond] at h
        cases h
        exact ⟨List.mem_cons_self a bs, (Bool.and_eq_true _ _ |>.mp hcond).1⟩
      · rw [if_neg hcond] at h
        have h2 : u = t := by injection h
        subst h2
        rcases ih u hb with ⟨hm, hq⟩
        exact ⟨List.mem_cons_of_mem a hm, hq⟩

theorem find?_stableSortBy (le : α → α → Bool) (q : α → Bool)
    (htot : ∀ x y, le x y = true ∨ le y x = true)
    (htrans : ∀ x y z, le x y = true → le y z = true → le x z = true) :
    ∀ l : List α, (stableSortBy le l).find? q = bestEarliest le q l := by
  intro l
  induction l with
  | nil => rfl
  | cons a bs ih =>
    have hpw := pairwise_stableSortBy le htot htrans bs
    show (insertStable le a (stableSortBy le bs)).find? q
      = bestStep le q a (bestEarliest le q bs)
    rw [find?_insertStable le q htot htrans a _ hpw, ← ih]
    by_cases hq : q a = true
    · rw [if_pos hq]
      cases hfind : (stableSortBy le bs).find? q with
      | none =>
        have hn : (stableSortBy le bs).find? (fun b => q b && sLt le b a) = none := by
          rw [List.find?_eq_none]
          intro x hx hcon
          rcases Bool.and_eq_true _ _ |>.mp hcon with ⟨hqx, _⟩
          exact (List.find?_eq_none.mp hfind x hx) hqx
        rw [hn]
        simp [bestStep, hq]
      | some u =>
        rcases List.find?_eq_some.mp hfind with ⟨hqu, as, bs2, hdec, hfail⟩
        by_cases hsl : sLt le u a = true
        · have hfu : (stableSortBy le bs).find? (fun b => q b && sLt le b a) = some u := by
            rw [hdec, List.find?_append]
            have h1 : as.find? (fun b => q b && sLt le b a) = none := by
              rw [List.find?_eq_none]
              intro x hx hcon
              rcases Bool.and_eq_true _ _ |>.mp hcon with ⟨hqx, _⟩
              have h3 := hfail x hx
              rw [hqx] at h3
              exact Bool.false_ne_true (by simpa using h3)
            rw [h1, List.find?_cons]
            simp only [hqu, hsl, Bool.and_self]
            rfl
          have hle : le a u = false := by
            rcases Bool.and_eq_true _ _ |>.mp hsl with ⟨_, hn⟩
            rwa [Bool.not_eq_true'] at hn
          rw [hfu]
          simp [bestStep, hle]
        · have hnone : (stableSortBy le bs).find? (fun b => q b && sLt le b a) = none := by
            rw [List.find?_eq_none]
            intro x hx hcon
            rcases Bool.and_eq_true _ _ |>.mp hcon with ⟨hqx, hsx⟩
            rw [hdec] at hx
            rcases List.mem_append.mp hx with hx1 | hx1
            · have h3 := hfail x hx1
              rw [hqx] at h3
              exact Bool.false_ne_true (by simpa using h3)
            · rcases List.mem_cons.mp hx1 with rfl | hx2
              · exact hsl hsx
              · have hux : le u x = true := by
                  have hpw2 := hpw
                  rw [hdec] at hpw2
                  rcases List.pairwise_append.mp hpw2 with ⟨_, hpc, _⟩
                  exact (List.pairwise_cons.mp hpc).1 x hx2
                rcases Bool.and_eq_true _ _ |>.mp hsx with ⟨hxa, hnax⟩
                rw [Bool.not_eq_true'] at hnax
                apply hsl
                have hua : le u a = true := htrans u x a hux hxa
                have hnau : le a u = false := by
                  cases hau : le a u
                  · rfl
                  · have h4 : le a x = true := htrans a u x hau hux
                    rw [h4] at hnax
                    exact (Bool.false_ne_true hnax.symm).elim
                rw [sLt, hua, hnau]
                rfl
          rw [hnone]
          have hau : le a u = true := by
            by_cases h2 : le u a = true
            · by_cases h3 : le a u = true
              · exact h3
              · exfalso
                apply hsl
                rw [sLt, h2]
                simp [h3]
            · rcases htot a u with h4 | h4
              · exact h4
              · exact absurd h4 h2
          simp [bestStep, hq, hau]
    · have hqf : q a = false := by
        cases hqa : q a
        · rfl
        · exact absurd hqa hq
      rw [if_neg hq]
      cases hfind : (stableSortBy le bs).find? q with
      | none => simp [bestStep, hqf]
      | some u => simp [bestStep, hqf]

/-! ## The string order used by the timestamp sort -/

theorem charToNat_inj {a b : Char} (h : a.toNat = b.toNat) : a = b :=
  Char.ext (UInt32.ext h)

theorem listLtChars_irrefl : ∀ x, listLtChars x x = false := by
  intro x
  induction x with
  | nil => rfl
  | cons a as ih => simp [listLtChars, ih]

theorem listLtChars_asymm : ∀ x y, listLtChars x y = true → listLtChars y x = false := by
  intro x
  induction x with
  | nil =>
    intro y h
    cases y with
    | nil => exact absurd h (by simp [listLtChars])
    | cons b bs => rfl
  | cons a as ih =>
    intro y h
    cases y with
    | nil => exact absurd h (by simp [listLtChars])
    | cons b bs =>
      by_cases hab : a = b
      · subst hab
        simp only [listLtChars, if_pos rfl] at h
        simp only [listLtChars, if_pos rfl]
        exact ih bs h
      · simp only [listLtChars, if_neg hab] at h
        have hlt : a.toNat < b.toNat := of_decide_eq_true h
        have hba : b ≠ a := fun hc => hab hc.symm
        simp only [listLtChars, if_neg hba]
        exact decide_eq_false (by omega)

theorem listLtChars_trans : ∀ x y z, listLtChars x y = true → listLtChars y z = true →
    listLtChars x z = true := by
  intro x
  induction x with
  | nil =>
    intro y z hxy hyz
    cases y with
    | nil => exact absurd hxy (by simp [listLtChars])
    | cons b bs =>
      cases z with
      | nil => exact absurd hyz (by simp [listLtChars])
      | cons c cs => rfl
  | cons a as ih =>
    intro y z hxy hyz
    cases y with
    | nil => exact absurd hxy (by simp [listLtChars])
    | cons b bs =>
      cases z with
      | nil => exact absurd hyz (by simp [listLtChars])
      | cons c cs =>
        by_cases hab : a = b
        · subst hab
          simp only [listLtChars, if_pos rfl] at hxy
          by_cases hbc : a = c
          · subst hbc
            simp only [listLtChars, if_pos rfl] at hyz
            simp only [listLtChars, if_pos rfl]
            exact ih bs cs hxy hyz
          · simp only [listLtChars, if_neg hbc] at hyz
            simp only [listLtChars, if_neg hbc]
            exact hyz
        · simp only [listLtChars, if_neg hab] at hxy
          have h1 : a.toNat < b.toNat := of_decide_eq_true hxy
          by_cases hbc : b = c
          · subst hbc
            simp only [listLtChars, if_neg hab]
            exact decide_eq_true h1
          · simp only [listLtChars, if_neg hbc] at hyz
            have h2 : b.toNat < c.toNat := of_decide_eq_true hyz
            have hac : a ≠ c := by
              intro hc
              subst hc
              omega
            simp only [listLtChars, if_neg hac]
            exact decide_eq_true (by omega)

theorem listLtChars_connex : ∀ x y, listLtChars x y = false → listLtChars y x = false →
    x = y := by
  intro x
  induction x with
  | nil =>
    intro y hxy _
    cases y with
    | nil => rfl
    | cons b bs => exact absurd hxy (by simp [listLtChars])
  | cons a as ih =>
    intro y hxy hyx
    cases y with
    | nil => exact absurd hyx (by simp [listLtChars])
    | cons b bs =>
      by_cases hab : a = b
      · subst hab
        simp only [listLtChars, if_pos rfl] at hxy hyx
        rw [ih bs hxy hyx]
      · have hba : b ≠ a := fun hc => hab hc.symm
        simp only [listLtChars, if_neg hab] at hxy
        simp only [listLtChars, if_neg hba] at hyx
        have h1 : ¬ a.toNat < b.toNat := of_decide_eq_false hxy
        have h2 : ¬ b.toNat < a.toNat := of_decide_eq_false hyx
        exact absurd (charToNat_inj (by omega)) hab

theorem strLeB_total (s t : String) : strLeB s t = true ∨ strLeB t s = true := by
  by_cases h : listLtChars t.data s.data = true
  · right
    rw [strLeB, strLtB, listLtChars_asymm _ _ h]
    rfl
  · left
    have h2 : listLtChars t.data s.data = false := by
      cases h2 : listLtChars t.data s.data
      · rfl
      · exact absurd h2 h
    rw [strLeB, strLtB, h2]
    rfl

theorem strLeB_trans (a b c : String) (hab : strLeB a b = true) (hbc : strLeB b c = true) :
    strLeB a c = true := by
  rw [strLeB, strLtB] at hab hbc ⊢
  have hba : listLtChars b.data a.data = false := by
    cases h : listLtChars b.data a.data
    · rfl
    · rw [h] at hab
      exact absurd hab (by simp)
  have hcb : listLtChars c.data b.data = false := by
    cases h : listLtChars c.data b.data
    · rfl
    · rw [h] at hbc
      exact absurd hbc (by simp)
  have hca : listLtChars c.data a.data = false := by
    cases hca2 : listLtChars c.data a.data
    · rfl
    · cases hbc2 : listLtChars b.data c.data
      · have heq := listLtChars_connex _ _ hbc2 hcb
        rw [heq] at hba
        rw [hba] at hca2
        exact absurd hca2 (by simp)
      · have := listLtChars_trans _ _ _ hbc2 hca2
        rw [this] at hba
        exact absurd hba (by simp)
  rw [hca]
  rfl

theorem eventLe_total (a b : SequenceEvent) : eventLe a b = true ∨ eventLe b a = true :=
  strLeB_total a.timestamp b.timestamp

theorem eventLe_trans (a b c : SequenceEvent) (h1 : eventLe a b = true)
    (h2 : eventLe b c = true) : eventLe a c = true :=
  strLeB_trans a.timestamp b.timestamp c.timestamp h1 h2

theorem strLeB_refl (s : String) : strLeB s s = true := by
  rw [strLeB, strLtB, listLtChars_irrefl]
  rfl

theorem sLt_eventLe_of_eq_ts (a b : SequenceEvent)
    (h : a.timestamp = b.timestamp) : sLt eventLe a b = false := by
  have hba : eventLe b a = true := by
    rw [eventLe, h]
    exact strLeB_refl _
  rw [sLt, hba]
  simp

theorem templateLe_total (a b : Template) : templateLe a b = true ∨ templateLe b a = true := by
  rw [templateLe, templateLe, decide_eq_true_eq, decide_eq_true_eq]
  exact Int.le_total a.priority b.priority

theorem templateLe_trans (a b c : Template) (h1 : templateLe a b = true)
    (h2 : templateLe b c = true) : templateLe a c = true := by
  rw [templateLe, decide_eq_true_eq] at h1 h2 ⊢
  omega

/-! ## Metadata dict lemmas -/

theorem dictGet_map_set_ne (k k2 : String) (v : MetaVal) (hne : k2 ≠ k) :
    ∀ m : MetaDict,
      dictGet (m.map (fun kv => if kv.1 = k then (k, v) else kv)) k2 = dictGet m k2 := by
  intro m
  induction m with
  | nil => rfl
  | cons h t ih =>
    rw [List.map_cons]
    by_cases hh : h.1 = k
    · rw [if_pos hh, dictGet, dictGet, if_neg (fun hc : k = k2 => hne hc.symm),
        if_neg (fun hc : h.1 = k2 => hne (hh ▸ hc).symm)]
      exact ih
    · rw [if_neg hh, dictGet, dictGet]
      by_cases hh2 : h.1 = k2
      · rw [if_pos hh2, if_pos hh2]
      · rw [if_neg hh2, if_neg hh2]
        exact ih

theorem dictGet_append_single_ne (k k2 : String) (v : MetaVal) (hne : k2 ≠ k) :
    ∀ m : MetaDict, dictGet (m ++ [(k, v)]) k2 = dictGet m k2 := by
  intro m
  induction m with
  | nil =>
    rw [List.nil_append, dictGet, dictGet, if_neg (fun hc : k = k2 => hne hc.symm)]
    rfl
  | cons h t ih =>
    rw [List.cons_append, dictGet, dictGet]
    by_cases hh : h.1 = k2
    · rw [if_pos hh, if_pos hh]
    · rw [if_neg hh, if_neg hh]
      exact ih

theorem dictGet_dictSet_ne (m : MetaDict) (k k2 : String) (v : MetaVal) (hne : k2 ≠ k) :
    dictGet (dictSet m k v) k2 = dictGet m k2 := by
  rw [dictSet]
  by_cases hany : m.any (fun kv => kv.1 = k) = true
  · rw [if_pos hany]
    exact dictGet_map_set_ne k k2 v hne m
  · rw [if_neg hany]
    exact dictGet_append_single_ne k k2 v hne m

theorem dictGet_map_set_self (k : String) (v : MetaVal) :
    ∀ m : MetaDict, m.any (fun kv => kv.1 = k) = true →
      dictGet (m.map (fun kv => if kv.1 = k then (k, v) else kv)) k = some v := by
  intro m
  induction m with
  | nil => intro h; exact absurd h (by simp)
  | cons h t ih =>
    intro hany
    rw [List.map_cons]
    by_cases hh : h.1 = k
    · rw [if_pos hh, dictGet, if_pos rfl]
    · rw [if_neg hh, dictGet, if_neg hh]
      apply ih
      rw [List.any_cons] at hany
      rcases Bool.or_eq_true _ _ |>.mp hany with h1 | h1
      · exact absurd (of_decide_eq_true h1) hh
      · exact h1

theorem dictGet_none_of_any_false (k : String) :
    ∀ m : MetaDict, m.any (fun kv => kv.1 = k) = false → dictGet m k = none := by
  intro m
  induction m with
  | nil => intro _; rfl
  | cons h t ih =>
    intro hany
    rw [List.any_cons] at hany
    rcases Bool.or_eq_false_iff.mp hany with ⟨h1, h2⟩
    rw [dictGet, if_neg (of_decide_eq_false h1)]
    exact ih h2

theorem dictGet_append_single_self (k : String) (v : MetaVal) :
    ∀ m : MetaDict, dictGet m k = none → dictGet (m ++ [(k, v)]) k = some v := by
  intro m
  induction m with
  | nil => intro _; rw [List.nil_append, dictGet, if_pos rfl]
  | cons h t ih =>
    intro hget
    rw [dictGet] at hget
    by_cases hh : h.1 = k
    · rw [if_pos hh] at hget
      cases hget
    · rw [if_neg hh] at hget
      rw [List.cons_append, dictGet, if_neg hh]
      exact ih hget

theorem dictGet_dictSet_self (m : MetaDict) (k : String) (v : MetaVal) :
    dictGet (dictSet m k v) k = some v := by
  rw [dictSet]
  by_cases hany : m.any (fun kv => kv.1 = k) = true
  · rw [if_pos hany]
    exact dictGet_map_set_self k v m hany
  · rw [if_neg hany]
    exact dictGet_append_single_self k v m
      (dictGet_none_of_any_false k m (by
        cases h2 : m.any (fun kv => kv.1 = k)
        · rfl
        · exact absurd h2 hany))

/-- The metadata filter used by `stripTiming` ignores a `dictSet` on the
stripped key. -/
theorem filter_dictSet_key (m : MetaDict) (k : String) (v : MetaVal) :
    (dictSet m k v).filter (fun kv => kv.1 != k) = m.filter (fun kv => kv.1 != k) := by
  rw [dictSet]
  by_cases hany : m.any (fun kv => kv.1 = k) = true
  · rw [if_pos hany]
    clear hany
    induction m with
    | nil => rfl
    | cons h t ih =>
      rw [List.map_cons, List.filter_cons, List.filter_cons]
      by_cases hh : h.1 = k
      · rw [if_pos hh]
        have h1 : (((k, v).1 != k) = true) = False := by simp
        have h2 : ((h.1 != k) = true) = False := by simp [hh]
        rw [if_neg (h1 ▸ id), if_neg (h2 ▸ id)]
        exact ih
      · rw [if_neg hh]
        have h2 : (h.1 != k) = true := by simp [hh]
        rw [if_pos h2, if_pos h2, ih]
  · rw [if_neg hany, List.filter_append, List.filter_cons]
    have h1 : (((k, v).1 != k) = true) = False := by simp
    rw [if_neg (h1 ▸ id)]
    simp

/-! ## Generator loop lemmas -/

theorem fst_generateEvents (ts : List Template) :
    ∀ es : List LogEntry,
      (generateEventsAndUnmatched ts es).1 = es.filterMap (fun e => tryTemplates e ts) := by
  intro es
  induction es with
  | nil => rfl
  | cons e es2 ih =>
    cases h : tryTemplates e ts with
    | none => simp only [generateEventsAndUnmatched, h, List.filterMap_cons, ih]
    | some ev => simp only [generateEventsAndUnmatched, h, List.filterMap_cons, ih]

theorem mem_unmatched (ts : List Template) (e : LogEntry)
    (hnone : tryTemplates e ts = none) :
    ∀ es : List LogEntry, e ∈ es → e ∈ (generateEventsAndUnmatched ts es).2 := by
  intro es
  induction es with
  | nil => intro h; cases h
  | cons f fs ih =>
    intro hm
    rcases List.mem_cons.mp hm with rfl | hm2
    · simp only [generateEventsAndUnmatched, hnone]
      exact List.mem_cons_self e _
    · cases h : tryTemplates f ts with
      | none =>
        simp only [generateEventsAndUnmatched, h]
        exact List.mem_cons_of_mem f (ih hm2)
      | some ev =>
        simp only [generateEventsAndUnmatched, h]
        exact ih hm2

theorem tryTemplates_none (e : LogEntry) :
    ∀ ts : List Template, (∀ t ∈ ts, Regex.search t.pattern e.message = none) →
      tryTemplates e ts = none := by
  intro ts
  induction ts with
  | nil => intro _; rfl
  | cons t ts2 ih =>
    intro h
    have ht := h t (List.mem_cons_self t ts2)
    simp only [tryTemplates, ht]
    exact ih (fun u hu => h u (List.mem_cons_of_mem t hu))

theorem tryTemplates_some (e : LogEntry) :
    ∀ ts : List Template, ∀ ev, tryTemplates e ts = some ev →
      ∃ t ∈ ts, ∃ groups, Regex.search t.pattern e.message = some groups ∧
        createSequenceEvent e t groups = some ev := by
  intro ts
  induction ts with
  | nil => intro ev h; cases h
  | cons t ts2 ih =>
    intro ev h
    cases hs : Regex.search t.pattern e.message with
    | none =>
      simp only [tryTemplates, hs] at h
      rcases ih ev h with ⟨u, hu, groups, hg, hc⟩
      exact ⟨u, List.mem_cons_of_mem t hu, groups, hg, hc⟩
    | some groups =>
      cases hc : createSequenceEvent e t groups with
      | none =>
        simp only [tryTemplates, hs, hc] at h
        rcases ih ev h with ⟨u, hu, groups2, hg2, hc2⟩
        exact ⟨u, List.mem_cons_of_mem t hu, groups2, hg2, hc2⟩
      | some ev2 =>
        simp only [tryTemplates, hs, hc] at h
        exact ⟨t, List.mem_cons_self t ts2, groups, hs, by rw [hc, h]⟩

theorem event_type_of_create (entry : LogEntry) (t : Template)
    (groups : List (Option String)) (ev : SequenceEvent)
    (h : createSequenceEvent entry t groups = some ev) : ev.event_type = t.name := by
  cases hsm : t.sequence_mapping with
  | none =>
    simp only [createSequenceEvent, hsm] at h
    exact Option.noConfusion h
  | some sm =>
    cases hf : mapEntityPy (sm.fromSlot.getD "Unknown") groups with
    | none =>
      simp only [createSequenceEvent, hsm, hf] at h
      exact Option.noConfusion h
    | some fe =>
      cases ht2 : mapEntityPy (sm.toSlot.getD "Unknown") groups with
      | none =>
        simp only [createSequenceEvent, hsm, hf, ht2] at h
        exact Option.noConfusion h
      | some te =>
        cases hm : mapEntityPy (sm.messageSlot.getD "Event") groups with
        | none =>
          simp only [createSequenceEvent, hsm, hf, ht2, hm] at h
          exact Option.noConfusion h
        | some me =>
          simp only [createSequenceEvent, hsm, hf, ht2, hm, Option.some.injEq] at h
          subst h
          rfl

/-- The per-record loop selects the first template whose pattern matches
**and** whose event construction succeeds, and the produced event's type is
that template's name. -/
theorem tryTemplates_map_eventType (e : LogEntry) :
    ∀ ts : List Template,
      (tryTemplates e ts).map (fun v => v.event_type) =
        (ts.find? (fun t =>
          ((Regex.search t.pattern e.message).bind
            (createSequenceEvent e t)).isSome)).map (fun t => t.name) := by
  intro ts
  induction ts with
  | nil => rfl
  | cons t ts2 ih =>
    rw [List.find?_cons]
    cases hs : Regex.search t.pattern e.message with
    | none =>
      simp only [tryTemplates, hs, Option.none_bind, Option.isSome_none]
      exact ih
    | some groups =>
      cases hc : createSequenceEvent e t groups with
      | none =>
        simp only [tryTemplates, hs, Option.some_bind, hc, Option.isSome_none]
        exact ih
      | some ev =>
        simp only [tryTemplates, hs, Option.some_bind, hc, Option.isSome_some]
        show some ev.event_type = some t.name
        rw [event_type_of_create e t groups ev hc]

/-- `_map_entity` cannot raise when every group participated: the alias
replacement values are then genuine strings. -/
theorem mapEntityPy_isSome (mapping : String) (groups : List (Option String))
    (hg : ∀ g ∈ groups, g.isSome = true) :
    (mapEntityPy mapping groups).isSome = true := by
  rw [mapEntityPy]
  split
  · rfl
  · have hav : ∀ i : Nat, ∃ s, aliasValue groups i = some s := by
      intro i
      cases hgi : groups[i]? with
      | none => exact ⟨"", by rw [aliasValue, hgi]⟩
      | some g =>
        rcases Option.isSome_iff_exists.mp (hg g (List.getElem?_mem hgi)) with ⟨s, hgs⟩
        exact ⟨s, by rw [aliasValue, hgi, hgs]⟩
    rcases hav 0 with ⟨a0, h0⟩
    rcases hav 1 with ⟨a1, h1⟩
    rcases hav 2 with ⟨a2, h2⟩
    rcases hav 3 with ⟨a3, h3⟩
    have hsa : substAliasesPy (substGroups mapping (groups.map pyStr)) groups
        = some (strReplace (strReplace (strReplace
            (strReplace (substGroups mapping (groups.map pyStr))
              "\x7btimestamp\x7d" a0) "\x7blevel\x7d" a1) "\x7btag\x7d" a2)
          "\x7bmessage\x7d" a3) := by
      rw [substAliasesPy, h0, h1, h2, h3]
    rw [hsa]
    rfl

/-- Event construction succeeds whenever the mapping is a dict and every
captured group participated. -/
theorem createSequenceEvent_isSome (e : LogEntry) (t : Template)
    (groups : List (Option String)) (hsm : t.sequence_mapping.isSome = true)
    (hg : ∀ g ∈ groups, g.isSome = true) :
    (createSequenceEvent e t groups).isSome = true := by
  rcases Option.isSome_iff_exists.mp hsm with ⟨sm, hsm2⟩
  rcases Option.isSome_iff_exists.mp
    (mapEntityPy_isSome (sm.fromSlot.getD "Unknown") groups hg) with ⟨fe, hf⟩
  rcases Option.isSome_iff_exists.mp
    (mapEntityPy_isSome (sm.toSlot.getD "Unknown") groups hg) with ⟨te, ht2⟩
  rcases Option.isSome_iff_exists.mp
    (mapEntityPy_isSome (sm.messageSlot.getD "Event") groups hg) with ⟨me, hm⟩
  simp only [createSequenceEvent, hsm2, hf, ht2, hm, Option.isSome_some]

/-- `mapEntity` is the restriction of `_map_entity` (`mapEntityPy`) to a
group tuple in which every group participated. -/
theorem mapEntityPy_map_some (mapping : String) (groups : List String) :
    mapEntityPy mapping (groups.map some) = some (mapEntity mapping groups) := by
  have hmap : (groups.map some).map pyStr = groups := by
    rw [List.map_map]
    exact List.map_id'' (fun a => rfl) groups
  have hav : ∀ i : Nat, aliasValue (groups.map some) i = some (groups.getD i "") := by
    intro i
    rw [aliasValue, List.getElem?_map]
    cases hgi : groups[i]? with
    | none => rw [List.getD_eq_getElem?_getD, hgi]; rfl
    | some s => rw [List.getD_eq_getElem?_getD, hgi]; rfl
  have hsa : substAliasesPy (substGroups mapping groups) (groups.map some)
      = some (substAliases (substGroups mapping groups) groups) := by
    rw [substAliasesPy, hav 0, hav 1, hav 2, hav 3]
    rfl
  rw [mapEntityPy, mapEntity]
  by_cases hm : mapping = ""
  · rw [if_pos hm, if_pos hm]
  · rw [if_neg hm, if_neg hm, hmap, hsa]
    rfl

/-! ## Enrichment lemmas -/

theorem mem_of_mem_enum {p : Nat × SequenceEvent} {l : List SequenceEvent}
    (h : p ∈ l.enum) : p.2 ∈ l := by
  rcases p with ⟨i, x⟩
  rcases List.mem_enum h with ⟨hlt, hx⟩
  rw [hx]
  exact List.getElem_mem hlt

theorem getElem?_addSequenceNumbers (l : List SequenceEvent) (i : Nat) :
    (addSequenceNumbers l)[i]? = l[i]?.map (withSeqNum i) := by
  rw [addSequenceNumbers, List.getElem?_map, List.getElem?_enum]
  cases l[i]? <;> rfl

theorem getElem?_addTimingInfo (y : Nat) (l : List SequenceEvent) (i : Nat) :
    (addTimingInfo y l)[i]? = l[i]?.map (timingUpdate y l i) := by
  rw [addTimingInfo, List.getElem?_map, List.getElem?_enum]
  cases l[i]? <;> rfl

theorem eventCore_withSeqNum (i : Nat) (e : SequenceEvent) :
    eventCore (withSeqNum i e) = eventCore e := rfl

theorem eventCore_timingUpdate (y : Nat) (l : List SequenceEvent) (i : Nat)
    (e : SequenceEvent) : eventCore (timingUpdate y l i e) = eventCore e := by
  rw [timingUpdate]
  split
  · rfl
  · cases hprev : l[i - 1]? with
    | none => rfl
    | some prev =>
      cases hpt : parseTimestamp y prev.timestamp with
      | none => simp only [hpt]
      | some pt =>
        cases hct : parseTimestamp y e.timestamp with
        | none => simp only [hpt, hct]
        | some ct =>
          simp only [hpt, hct]
          rfl

theorem dictGet_withSeqNum_ne (i : Nat) (e : SequenceEvent) (k : String)
    (h : k ≠ "sequence_number") :
    dictGet (withSeqNum i e).metadata k = dictGet e.metadata k :=
  dictGet_dictSet_ne e.metadata "sequence_number" k (.int (i + 1)) h

theorem dictGet_timingUpdate_ne (y : Nat) (l : List SequenceEvent) (i : Nat)
    (e : SequenceEvent) (k : String) (h : k ≠ "time_since_previous") :
    dictGet (timingUpdate y l i e).metadata k = dictGet e.metadata k := by
  rw [timingUpdate]
  split
  · rfl
  · cases hprev : l[i - 1]? with
    | none => rfl
    | some prev =>
      cases hpt : parseTimestamp y prev.timestamp with
      | none => simp only [hpt]
      | some pt =>
        cases hct : parseTimestamp y e.timestamp with
        | none => simp only [hpt, hct]
        | some ct =>
          simp only [hpt, hct]
          exact dictGet_dictSet_ne e.metadata "time_since_previous" k _ h

theorem map_eventCore_enumFromMap (f : Nat × SequenceEvent → SequenceEvent)
    (hf : ∀ p, eventCore (f p) = eventCore p.2) :
    ∀ (n : Nat) (l : List SequenceEvent),
      ((List.enumFrom n l).map f).map eventCore = l.map eventCore := by
  intro n l
  induction l generalizing n with
  | nil => rfl
  | cons a l2 ih =>
    show eventCore (f (n, a)) :: ((List.enumFrom (n + 1) l2).map f).map eventCore
      = eventCore a :: l2.map eventCore
    rw [hf ⟨n, a⟩, ih (n + 1)]

theorem map_eventCore_enrich (y : Nat) (l : List SequenceEvent) :
    (enrichEventsWithMetadata y l).map eventCore = l.map eventCore := by
  rw [enrichEventsWithMetadata]
  have h1 : (addTimingInfo y (addSequenceNumbers l)).map eventCore
      = (addSequenceNumbers l).map eventCore := by
    rw [addTimingInfo]
    exact map_eventCore_enumFromMap _ (fun p => eventCore_timingUpdate y _ p.1 p.2) 0 _
  have h2 : (addSequenceNumbers l).map eventCore = l.map eventCore := by
    rw [addSequenceNumbers]
    exact map_eventCore_enumFromMap _ (fun p => eventCore_withSeqNum p.1 p.2) 0 l
  rw [h1, h2]

theorem source_of_mem_enrich (y : Nat) (l : List SequenceEvent) (ev : SequenceEvent)
    (h : ev ∈ enrichEventsWithMetadata y l) :
    ∃ e ∈ l, eventCore ev = eventCore e ∧
      ∀ k, k ≠ "sequence_number" → k ≠ "time_since_previous" →
        dictGet ev.metadata k = dictGet e.metadata k := by
  rw [enrichEventsWithMetadata, addTimingInfo] at h
  rcases List.mem_map.mp h with ⟨p, hp, hev⟩
  have hp2 := mem_of_mem_enum hp
  rw [addSequenceNumbers] at hp2
  rcases List.mem_map.mp hp2 with ⟨q, hq, hq2⟩
  have hq3 := mem_of_mem_enum hq
  refine ⟨q.2, hq3, ?_, ?_⟩
  · rw [← hev, eventCore_timingUpdate, ← hq2, eventCore_withSeqNum]
  · intro k hk1 hk2
    rw [← hev, dictGet_timingUpdate_ne _ _ _ _ _ hk2, ← hq2,
      dictGet_withSeqNum_ne _ _ _ hk1]

/-! ## Facts about a successfully created event -/

theorem createSequenceEvent_facts (entry : LogEntry) (t : Template)
    (groups : List (Option String)) (ev : SequenceEvent)
    (h : createSequenceEvent entry t groups = some ev) :
    ∃ sm, t.sequence_mapping = some sm ∧
      ev.timestamp = entry.timestamp ∧
      mapEntityPy (sm.fromSlot.getD "Unknown") groups = some ev.from_entity ∧
      mapEntityPy (sm.toSlot.getD "Unknown") groups = some ev.to_entity ∧
      mapEntityPy (sm.messageSlot.getD "Event") groups = some ev.message ∧
      ev.event_type = t.name ∧
      ev.log_entry = some entry ∧
      dictGet ev.metadata "template_name" = some (.str t.name) ∧
      dictGet ev.metadata "template_priority" = some (.int t.priority) ∧
      dictGet ev.metadata "log_level" = some (.str entry.level.value) ∧
      dictGet ev.metadata "log_tag" = some (.str entry.tag) ∧
      dictGet ev.metadata "groups" = some (.strList groups) ∧
      dictGet ev.metadata "matched_groups" = none ∧
      dictGet ev.metadata "sequence_number" = none ∧
      dictGet ev.metadata "time_since_previous" = none := by
  cases hsm : t.sequence_mapping with
  | none =>
    simp only [createSequenceEvent, hsm] at h
    exact Option.noConfusion h
  | some sm =>
    cases hf : mapEntityPy (sm.fromSlot.getD "Unknown") groups with
    | none =>
      simp only [createSequenceEvent, hsm, hf] at h
      exact Option.noConfusion h
    | some fe =>
      cases ht2 : mapEntityPy (sm.toSlot.getD "Unknown") groups with
      | none =>
        simp only [createSequenceEvent, hsm, hf, ht2] at h
        exact Option.noConfusion h
      | some te =>
        cases hmsg : mapEntityPy (sm.messageSlot.getD "Event") groups with
        | none =>
          simp only [createSequenceEvent, hsm, hf, ht2, hmsg] at h
          exact Option.noConfusion h
        | some me =>
          simp only [createSequenceEvent, hsm, hf, ht2, hmsg, Option.some.injEq] at h
          subst h
          refine ⟨sm, rfl, rfl, hf, ht2, hmsg, rfl, rfl, ?_, ?_, ?_, ?_, ?_, ?_, ?_, ?_⟩
            <;> simp [dictGet]

/-! ## Substitution lemmas (Entity Mapper, placeholder phase) -/

theorem replaceAllAux_id (pat repl : List Char) :
    ∀ (s : List Char) (fuel : Nat), hasSub pat s = false →
      replaceAllAux pat repl fuel s = s := by
  intro s
  induction s with
  | nil => intro fuel _; cases fuel <;> rfl
  | cons c cs ih =>
    intro fuel h
    rw [hasSub] at h
    rcases Bool.or_eq_false_iff.mp h with ⟨h1, h2⟩
    cases fuel with
    | zero => rfl
    | succ fuel2 =>
      rw [replaceAllAux, if_neg (fun hc => by rw [hc.2] at h1; cases h1), ih fuel2 h2]

theorem replaceAllCore_id (pat repl : List Char) :
    ∀ s, hasSub pat s = false → replaceAllCore pat repl s = s :=
  fun s h => replaceAllAux_id pat repl s s.length h

theorem strReplace_of_not_contains (s pat repl : String)
    (h : strContains s pat = false) : strReplace s pat repl = s := by
  rw [strReplace, replaceAllCore_id pat.data repl.data s.data h]

/-- The guarded loop body equals an unconditional replace: replacing an
absent placeholder is the identity. -/
theorem substGroupsAux_eq_spec :
    ∀ (gs : List String) (i : Nat) (r : String),
      substGroupsAux r i gs = substGroupsSpec r (i + 1) gs := by
  intro gs
  induction gs with
  | nil => intro i r; rfl
  | cons g gs2 ih =>
    intro i r
    rw [substGroupsAux, substGroupsSpec]
    by_cases hc : strContains r ("\x7bgroup" ++ toString (i + 1) ++ "\x7d") = true
    · rw [if_pos hc, ih]
    · have hcf : strContains r ("\x7bgroup" ++ toString (i + 1) ++ "\x7d") = false := by
        cases h2 : strContains r ("\x7bgroup" ++ toString (i + 1) ++ "\x7d")
        · rfl
        · exact absurd h2 hc
      rw [if_neg hc, ih,
        strReplace_of_not_contains r ("\x7bgroup" ++ toString (i + 1) ++ "\x7d") g hcf]

theorem substFull_eq_spec (mapping : String) (groups : List String) :
    substFull mapping groups = substFullSpec mapping groups := by
  rw [substFull, substFullSpec, substGroups, substGroupsAux_eq_spec]

/-! ## Sanitization lemmas -/

theorem collapseWsAux_true :
    ∀ cs : List Char, collapseWsAux true cs = collapseWs (cs.dropWhile isPySpace) := by
  intro cs
  induction cs with
  | nil => rfl
  | cons c cs2 ih =>
    by_cases hc : isPySpace c = true
    · rw [collapseWsAux, if_pos hc, if_pos rfl, ih, List.dropWhile_cons, if_pos hc]
    · rw [collapseWsAux, if_neg hc, List.dropWhile_cons, if_neg hc, collapseWs,
        collapseWsAux, if_neg hc]

theorem collapseWs_nil : collapseWs [] = [] := rfl

theorem collapseWs_cons (c : Char) (cs : List Char) :
    collapseWs (c :: cs) =
      if isPySpace c then '_' :: collapseWs (cs.dropWhile isPySpace)
      else c :: collapseWs cs := by
  by_cases hc : isPySpace c = true
  · rw [if_pos hc, collapseWs, collapseWsAux, if_pos hc, if_neg (by intro hcon; cases hcon),
      collapseWsAux_true]
  · rw [if_neg hc, collapseWs, collapseWsAux, if_neg hc]
    rfl

theorem rstripWs_nil_of_all_ws :
    ∀ t : List Char, (∀ c ∈ t, isPySpace c = true) → rstripWs t = [] := by
  intro t
  induction t with
  | nil => intro _; rfl
  | cons c cs ih =>
    intro h
    rw [rstripWs]
    simp only [ih (fun d hd => h d (List.mem_cons_of_mem c hd)), List.isEmpty_nil,
      h c (List.mem_cons_self c cs), Bool.and_self, if_true]

theorem rstripWs_append_all_ws (t : List Char) (ht : ∀ c ∈ t, isPySpace c = true) :
    ∀ x : List Char, rstripWs (x ++ t) = rstripWs x := by
  intro x
  induction x with
  | nil => rw [List.nil_append, rstripWs_nil_of_all_ws t ht]; rfl
  | cons c cs ih => rw [List.cons_append, rstripWs, ih, rstripWs]

theorem rstripWs_id_of_no_ws :
    ∀ x : List Char, (∀ c ∈ x, isPySpace c = false) → rstripWs x = x := by
  intro x
  induction x with
  | nil => intro _; rfl
  | cons c cs ih =>
    intro h
    rw [rstripWs, ih (fun d hd => h d (List.mem_cons_of_mem c hd)),
      h c (List.mem_cons_self c cs)]
    simp

theorem rstripWs_cons_not_ws (c : Char) (cs : List Char) (h : isPySpace c = false) :
    rstripWs (c :: cs) = c :: rstripWs cs := by
  rw [rstripWs, h]
  simp

theorem rstripWs_append_ne (y : List Char) (hy : rstripWs y ≠ []) :
    ∀ x : List Char, rstripWs (x ++ y) = x ++ rstripWs y := by
  intro x
  induction x with
  | nil => rfl
  | cons c cs ih =>
    rw [List.cons_append, rstripWs, ih]
    have hne : (cs ++ rstripWs y).isEmpty = false := by
      cases h2 : (cs ++ rstripWs y).isEmpty
      · rfl
      · exact absurd (List.append_eq_nil.mp (List.isEmpty_iff.mp h2)).2 hy
    rw [hne]
    simp

theorem collapseWs_append_no_ws :
    ∀ w : List Char, (∀ c ∈ w, isPySpace c = false) →
      ∀ z, collapseWs (w ++ z) = w ++ collapseWs z := by
  intro w
  induction w with
  | nil => intro _ z; rfl
  | cons c cs ih =>
    intro h z
    rw [List.cons_append, collapseWs_cons,
      if_neg (by rw [h c (List.mem_cons_self c cs)]; simp),
      ih (fun d hd => h d (List.mem_cons_of_mem c hd)) z, List.cons_append]

theorem collapseWs_id_of_no_ws (w : List Char) (h : ∀ c ∈ w, isPySpace c = false) :
    collapseWs w = w := by
  have h2 := collapseWs_append_no_ws w h []
  rw [List.append_nil] at h2
  rw [h2, collapseWs_nil, List.append_nil]

theorem dropWhile_append_all_ws (ss : List Char) (hs : ∀ c ∈ ss, isPySpace c = true) :
    ∀ X : List Char, (ss ++ X).dropWhile isPySpace = X.dropWhile isPySpace := by
  intro X
  induction ss with
  | nil => rfl
  | cons c cs ih =>
    rw [List.cons_append, List.dropWhile_cons, if_pos (hs c (List.mem_cons_self c cs))]
    exact ih (fun d hd => hs d (List.mem_cons_of_mem c hd))

theorem dropWhile_head_false {p : Char → Bool} {r : Char} {rs : List Char} :
    ∀ l : List Char, l.dropWhile p = r :: rs → p r = false := by
  intro l
  induction l with
  | nil => intro h; cases h
  | cons c cs ih =>
    intro h
    rw [List.dropWhile_cons] at h
    by_cases hc : p c = true
    · rw [if_pos hc] at h
      exact ih h
    · rw [if_neg hc] at h
      cases h
      cases h2 : p r
      · rfl
      · exact absurd h2 hc

theorem splitWs_nil_of_all_ws :
    ∀ l : List Char, (∀ c ∈ l, isPySpace c = true) → splitWs l = [] := by
  intro l
  induction l with
  | nil => intro _; rw [splitWs]
  | cons c cs ih =>
    intro h
    rw [splitWs, if_pos (h c (List.mem_cons_self c cs))]
    exact ih (fun d hd => h d (List.mem_cons_of_mem c hd))

theorem splitWs_skip_ws (ss : List Char) (hs : ∀ c ∈ ss, isPySpace c = true) :
    ∀ X : List Char, splitWs (ss ++ X) = splitWs X := by
  intro X
  induction ss with
  | nil => rfl
  | cons c cs ih =>
    rw [List.cons_append, splitWs, if_pos (hs c (List.mem_cons_self c cs))]
    exact ih (fun d hd => hs d (List.mem_cons_of_mem c hd))

theorem joinU_cons_of_ne (a : List Char) (L : List (List Char)) (h : L ≠ []) :
    joinU (a :: L) = a ++ '_' :: joinU L := by
  cases L with
  | nil => exact absurd rfl h
  | cons b M => rfl

/-- Trim-then-collapse equals split-then-join-with-underscores. -/
theorem collapse_strip_eq_join :
    ∀ (n : Nat) (l : List Char), l.length ≤ n →
      collapseWs (pyStrip l) = joinU (splitWs l) := by
  intro n
  induction n with
  | zero =>
    intro l hl
    have hnil : l = [] := List.eq_nil_of_length_eq_zero (Nat.le_zero.mp hl)
    subst hnil
    rw [show pyStrip [] = [] from rfl, collapseWs_nil, splitWs]
    rfl
  | succ n ih =>
    intro l hl
    cases l with
    | nil =>
      rw [show pyStrip [] = [] from rfl, collapseWs_nil, splitWs]
      rfl
    | cons c cs =>
      have hlcs : cs.length ≤ n := by
        rw [List.length_cons] at hl
        omega
      by_cases hws : isPySpace c = true
      · have h1 : pyStrip (c :: cs) = pyStrip cs := by
          rw [pyStrip, pyStrip, List.dropWhile_cons, if_pos hws]
        have h2 : splitWs (c :: cs) = splitWs cs := by
          rw [splitWs, if_pos hws]
        rw [h1, h2]
        exact ih cs hlcs
      · have hwsf : isPySpace c = false := by
          cases h2 : isPySpace c
          · rfl
          · exact absurd h2 hws
        have hcs : cs.takeWhile (fun d => !isPySpace d) ++
            cs.dropWhile (fun d => !isPySpace d) = cs :=
          List.takeWhile_append_dropWhile _ cs
        have hwmem : ∀ d ∈ cs.takeWhile (fun d => !isPySpace d), isPySpace d = false := by
          intro d hd
          have h3 := List.mem_takeWhile_imp hd
          rwa [Bool.not_eq_true'] at h3
        have hsplit : splitWs (c :: cs) =
            (c :: cs.takeWhile (fun d => !isPySpace d)) ::
              splitWs (cs.dropWhile (fun d => !isPySpace d)) := by
          rw [splitWs, if_neg hws]
        have hstrip : pyStrip (c :: cs) = rstripWs (c :: cs) := by
          rw [pyStrip, List.dropWhile_cons, if_neg hws]
        cases hr : cs.dropWhile (fun d => !isPySpace d) with
        | nil =>
          have hcsw : cs = cs.takeWhile (fun d => !isPySpace d) := by
            conv_lhs => rw [← hcs]
            rw [hr, List.append_nil]
          have hnows : ∀ d ∈ c :: cs, isPySpace d = false := by
            intro d hd
            rcases List.mem_cons.mp hd with rfl | hd2
            · exact hwsf
            · exact hwmem d (hcsw ▸ hd2)
          rw [hsplit, hr, hstrip, rstripWs_id_of_no_ws _ hnows,
            collapseWs_id_of_no_ws _ hnows,
            show splitWs [] = [] from by rw [splitWs]]
          show c :: cs = joinU [c :: cs.takeWhile (fun d => !isPySpace d)]
          rw [joinU]
          exact congrArg (List.cons c) hcsw
        | cons r rs =>
          have hrws : isPySpace r = true := by
            have h3 := dropWhile_head_false cs hr
            rwa [Bool.not_eq_false'] at h3
          have hrun : (r :: rs).takeWhile isPySpace ++ (r :: rs).dropWhile isPySpace
              = r :: rs := List.takeWhile_append_dropWhile _ _
          have hrunmem : ∀ d ∈ (r :: rs).takeWhile isPySpace, isPySpace d = true :=
            fun d hd => List.mem_takeWhile_imp hd
          cases hr2 : (r :: rs).dropWhile isPySpace with
          | nil =>
            have hrestws : ∀ d ∈ r :: rs, isPySpace d = true := by
              intro d hd
              rw [← hrun, hr2, List.append_nil] at hd
              exact hrunmem d hd
            have hl1 : rstripWs (c :: cs) =
                c :: cs.takeWhile (fun d => !isPySpace d) := by
              have hdec : c :: cs =
                  (c :: cs.takeWhile (fun d => !isPySpace d)) ++ (r :: rs) := by
                rw [List.cons_append, ← hr, hcs]
              rw [hdec, rstripWs_append_all_ws (r :: rs) hrestws,
                rstripWs_id_of_no_ws _ (by
                  intro d hd
                  rcases List.mem_cons.mp hd with rfl | hd2
                  · exact hwsf
                  · exact hwmem d hd2)]
            rw [hsplit, hr, hstrip, hl1, collapseWs_id_of_no_ws _ (by
                intro d hd
                rcases List.mem_cons.mp hd with rfl | hd2
                · exact hwsf
                · exact hwmem d hd2),
              splitWs_nil_of_all_ws (r :: rs) hrestws]
            rfl
          | cons d ds =>
            have hd : isPySpace d = false := dropWhile_head_false (r :: rs) hr2
            have hRne : rstripWs (d :: ds) ≠ [] := by
              rw [rstripWs_cons_not_ws d ds hd]
              exact List.cons_ne_nil d _
            have hdecomp : c :: cs =
                ((c :: cs.takeWhile (fun d => !isPySpace d)) ++
                  (r :: rs).takeWhile isPySpace) ++ (d :: ds) := by
              rw [List.append_assoc, List.cons_append, ← hr2, hrun, ← hr, hcs]
            have hl1 : rstripWs (c :: cs) =
                ((c :: cs.takeWhile (fun d => !isPySpace d)) ++
                  (r :: rs).takeWhile isPySpace) ++ rstripWs (d :: ds) := by
              rw [hdecomp, rstripWs_append_ne (d :: ds) hRne]
            have hrunC : ∀ z, collapseWs ((r :: rs).takeWhile isPySpace ++ z) =
                '_' :: collapseWs (z.dropWhile isPySpace) := by
              intro z
              have h4 : (r :: rs).takeWhile isPySpace =
                  r :: rs.takeWhile isPySpace := by
                rw [List.takeWhile_cons, if_pos hrws]
              rw [h4, List.cons_append, collapseWs_cons, if_pos hrws,
                dropWhile_append_all_ws (rs.takeWhile isPySpace)
                  (fun u hu => List.mem_takeWhile_imp hu) z]
            have hlen2 : (d :: ds).length ≤ n := by
              have s1 : (d :: ds).Sublist (r :: rs) := hr2 ▸ List.dropWhile_sublist _
              have s2 : (r :: rs).Sublist cs := hr ▸ List.dropWhile_sublist _
              have := List.Sublist.length_le (s1.trans s2)
              omega
            have hstrip2 : pyStrip (d :: ds) = rstripWs (d :: ds) := by
              rw [pyStrip, List.dropWhile_cons, if_neg (by rw [hd]; simp)]
            have hdds : collapseWs (rstripWs (d :: ds)) = joinU (splitWs (d :: ds)) := by
              rw [← hstrip2]
              exact ih (d :: ds) hlen2
            have hsne : splitWs (d :: ds) ≠ [] := by
              rw [splitWs, if_neg (by rw [hd]; simp)]
              exact List.cons_ne_nil _ _
            have hdrop : (rstripWs (d :: ds)).dropWhile isPySpace
                = rstripWs (d :: ds) := by
              rw [rstripWs_cons_not_ws d ds hd, List.dropWhile_cons,
                if_neg (by rw [hd]; simp)]
            have hsp : splitWs (r :: rs) = splitWs (d :: ds) := by
              conv_lhs => rw [← hrun, hr2]
              exact splitWs_skip_ws ((r :: rs).takeWhile isPySpace) hrunmem (d :: ds)
            rw [hstrip, hl1, List.append_assoc, collapseWs_append_no_ws _ (by
                intro u hu
                rcases List.mem_cons.mp hu with rfl | hu2
                · exact hwsf
                · exact hwmem u hu2),
              hrunC, hdrop, hdds, hsplit, hr, hsp, joinU_cons_of_ne _ _ hsne]

theorem mem_rstripWs {c : Char} : ∀ l : List Char, c ∈ rstripWs l → c ∈ l := by
  intro l
  induction l with
  | nil => intro h; cases h
  | cons a cs ih =>
    intro h
    rw [rstripWs] at h
    by_cases hc : ((rstripWs cs).isEmpty && isPySpace a) = true
    · rw [if_pos hc] at h
      cases h
    · rw [if_neg hc] at h
      rcases List.mem_cons.mp h with rfl | h2
      · exact List.mem_cons_self _ _
      · exact List.mem_cons_of_mem a (ih h2)

theorem mem_pyStrip {c : Char} (l : List Char) (h : c ∈ pyStrip l) : c ∈ l := by
  rw [pyStrip] at h
  exact (List.dropWhile_sublist isPySpace).mem (mem_rstripWs _ h)

theorem mem_collapseWs {c : Char} :
    ∀ (n : Nat) (l : List Char), l.length ≤ n → c ∈ collapseWs l →
      c = '_' ∨ (c ∈ l ∧ isPySpace c = false) := by
  intro n
  induction n with
  | zero =>
    intro l hl h
    have hnil : l = [] := List.eq_nil_of_length_eq_zero (Nat.le_zero.mp hl)
    subst hnil
    rw [collapseWs_nil] at h
    cases h
  | succ n ih =>
    intro l hl h
    cases l with
    | nil =>
      rw [collapseWs_nil] at h
      cases h
    | cons a cs =>
      have hlcs : cs.length ≤ n := by
        rw [List.length_cons] at hl
        omega
      by_cases ha : isPySpace a = true
      · rw [collapseWs_cons, if_pos ha] at h
        rcases List.mem_cons.mp h with rfl | h2
        · exact Or.inl rfl
        · have hlen : (cs.dropWhile isPySpace).length ≤ n :=
            Nat.le_trans (List.Sublist.length_le (List.dropWhile_sublist isPySpace)) hlcs
          rcases ih (cs.dropWhile isPySpace) hlen h2 with h3 | ⟨h3, h4⟩
          · exact Or.inl h3
          · exact Or.inr ⟨List.mem_cons_of_mem a
              ((List.dropWhile_sublist isPySpace).mem h3), h4⟩
      · have haf : isPySpace a = false := by
          cases h2 : isPySpace a
          · rfl
          · exact absurd h2 ha
        rw [collapseWs_cons, if_neg ha] at h
        rcases List.mem_cons.mp h with rfl | h2
        · exact Or.inr ⟨List.mem_cons_self _ _, haf⟩
        · rcases ih cs hlcs h2 with h3 | ⟨h3, h4⟩
          · exact Or.inl h3
          · exact Or.inr ⟨List.mem_cons_of_mem a h3, h4⟩

theorem splitWs_words_ne_nil {w : List Char} :
    ∀ (n : Nat) (l : List Char), l.length ≤ n → w ∈ splitWs l → w ≠ [] := by
  intro n
  induction n with
  | zero =>
    intro l hl h
    have hnil : l = [] := List.eq_nil_of_length_eq_zero (Nat.le_zero.mp hl)
    subst hnil
    rw [splitWs] at h
    cases h
  | succ n ih =>
    intro l hl h
    cases l with
    | nil =>
      rw [splitWs] at h
      cases h
    | cons a cs =>
      have hlcs : cs.length ≤ n := by
        rw [List.length_cons] at hl
        omega
      by_cases ha : isPySpace a = true
      · rw [splitWs, if_pos ha] at h
        exact ih cs hlcs h
      · rw [splitWs, if_neg ha] at h
        rcases List.mem_cons.mp h with rfl | h2
        · exact List.cons_ne_nil _ _
        · have hlen : (cs.dropWhile (fun d => !isPySpace d)).length ≤ n :=
            Nat.le_trans (List.Sublist.length_le (List.dropWhile_sublist _)) hlcs
          exact ih _ hlen h2

theorem joinU_ne_nil (W : List (List Char)) (hW : W ≠ [])
    (hw : ∀ w ∈ W, w ≠ []) : joinU W ≠ [] := by
  cases W with
  | nil => exact absurd rfl hW
  | cons a M =>
    cases M with
    | nil => exact hw a (List.mem_cons_self a [])
    | cons b M2 =>
      rw [joinU_cons_of_ne a (b :: M2) (List.cons_ne_nil b M2)]
      intro hc
      rcases List.append_eq_nil.mp hc with ⟨_, h2⟩
      cases h2

/-- `_map_entity` computes exactly the amended-C4 pipeline (underscores kept,
trim-and-collapse = split-and-join). -/
theorem mapEntity_eq_amendedC4 (mapping : String) (groups : List String) :
    mapEntity mapping groups = mapEntityAmendedC4 mapping groups := by
  rw [mapEntity, mapEntityAmendedC4]
  by_cases hm : mapping = ""
  · rw [if_pos hm, if_pos hm]
  · rw [if_neg hm, if_neg hm]
    show (if sanitizeMermaid (substFull mapping groups) = "" then "Unknown"
        else sanitizeMermaid (substFull mapping groups)) =
      (if (splitWs (sanitizeChars (substFull mapping groups).data)).isEmpty = true
        then "Unknown"
        else String.mk (joinU (splitWs (sanitizeChars (substFull mapping groups).data))))
    have hsan : sanitizeMermaid (substFull mapping groups) =
        String.mk (joinU (splitWs (sanitizeChars (substFull mapping groups).data))) := by
      rw [sanitizeMermaid,
        collapse_strip_eq_join (sanitizeChars (substFull mapping groups).data).length _
          (Nat.le_refl _)]
    cases hsw : splitWs (sanitizeChars (substFull mapping groups).data) with
    | nil =>
      rw [hsan, hsw]
      decide
    | cons a L =>
      rw [hsan, hsw]
      have hwords : ∀ w ∈ a :: L, w ≠ [] := by
        intro w hwmem
        exact splitWs_words_ne_nil (sanitizeChars (substFull mapping groups).data).length
          _ (Nat.le_refl _) (hsw ▸ hwmem)
      have hne : joinU (a :: L) ≠ [] :=
        joinU_ne_nil (a :: L) (List.cons_ne_nil a L) hwords
      have hne2 : String.mk (joinU (a :: L)) ≠ "" := by
        intro hc
        exact hne (congrArg String.data hc)
      rw [if_neg hne2, if_neg (by intro hc; cases hc)]

/-- Every Entity Mapper result is a non-empty whitespace-free identifier
over letters, digits, underscore, hyphen. -/
theorem mapEntity_safe (mapping : String) (groups : List String) :
    mapEntity mapping groups ≠ "" ∧
      ∀ c ∈ (mapEntity mapping groups).data, safeChar c = true ∧ isPySpace c = false := by
  rw [mapEntity]
  by_cases hm : mapping = ""
  · rw [if_pos hm]
    refine ⟨by decide, ?_⟩
    intro c hc
    fin_cases hc <;> exact ⟨by decide, by decide⟩
  · rw [if_neg hm]
    by_cases hs : sanitizeMermaid (substFull mapping groups) = ""
    · rw [if_pos hs]
      refine ⟨by decide, ?_⟩
      intro c hc
      fin_cases hc <;> exact ⟨by decide, by decide⟩
    · rw [if_neg hs]
      refine ⟨hs, ?_⟩
      intro c hc
      rw [sanitizeMermaid] at hc
      rcases mem_collapseWs (pyStrip (sanitizeChars (substFull mapping groups).data)).length
          _ (Nat.le_refl _) hc with h1 | ⟨h2, h3⟩
      · subst h1
        exact ⟨by decide, by decide⟩
      · have h4 := mem_pyStrip _ h2
        rcases List.mem_filter.mp h4 with ⟨_, hfil⟩
        rcases Bool.or_eq_true _ _ |>.mp hfil with h5 | h5
        · rcases Bool.or_eq_true _ _ |>.mp h5 with h6 | h6
          · refine ⟨?_, h3⟩
            simp only [isWordChar] at h6
            rcases Bool.or_eq_true _ _ |>.mp h6 with h7 | h7
            · simp [safeChar, h7]
            · have h8 := of_decide_eq_true h7
              subst h8
              decide
          · rw [h6] at h3
            cases h3
        · refine ⟨?_, h3⟩
          have h8 := of_decide_eq_true h5
          subst h8
          decide

/-- Every character surviving the sanitization tail is a safe identifier
character and not whitespace. -/
theorem sanitizeMermaid_chars (s : String) :
    ∀ c ∈ (sanitizeMermaid s).data, safeChar c = true ∧ isPySpace c = false := by
  intro c hc
  rw [sanitizeMermaid] at hc
  rcases mem_collapseWs (pyStrip (sanitizeChars s.data)).length
      _ (Nat.le_refl _) hc with h1 | ⟨h2, h3⟩
  · subst h1
    exact ⟨by decide, by decide⟩
  · have h4 := mem_pyStrip _ h2
    rcases List.mem_filter.mp h4 with ⟨_, hfil⟩
    rcases Bool.or_eq_true _ _ |>.mp hfil with h5 | h5
    · rcases Bool.or_eq_true _ _ |>.mp h5 with h6 | h6
      · refine ⟨?_, h3⟩
        simp only [isWordChar] at h6
        rcases Bool.or_eq_true _ _ |>.mp h6 with h7 | h7
        · simp [safeChar, h7]
        · have h8 := of_decide_eq_true h7
          subst h8
          decide
      · rw [h6] at h3
        cases h3
    · refine ⟨?_, h3⟩
      have h8 := of_decide_eq_true h5
      subst h8
      decide

/-- Every successful `_map_entity` result (on a raw group tuple) is a
non-empty whitespace-free identifier over letters, digits, underscore,
hyphen. -/
theorem mapEntityPy_safe (mapping : String) (groups : List (Option String))
    (r : String) (h : mapEntityPy mapping groups = some r) : isSafeIdent r := by
  rw [mapEntityPy] at h
  by_cases hm : mapping = ""
  · rw [if_pos hm] at h
    have hr : ("Unknown" : String) = r := Option.some_inj.mp h
    subst hr
    refine ⟨by decide, ?_⟩
    intro c hc
    fin_cases hc <;> exact ⟨by decide, by decide⟩
  · rw [if_neg hm] at h
    cases hsa : substAliasesPy (substGroups mapping (groups.map pyStr)) groups with
    | none =>
      rw [hsa] at h
      cases h
    | some substituted =>
      rw [hsa] at h
      have h2 : (if sanitizeMermaid substituted = "" then "Unknown"
          else sanitizeMermaid substituted) = r := Option.some_inj.mp h
      by_cases hs : sanitizeMermaid substituted = ""
      · rw [if_pos hs] at h2
        subst h2
        refine ⟨by decide, ?_⟩
        intro c hc
        fin_cases hc <;> exact ⟨by decide, by decide⟩
      · rw [if_neg hs] at h2
        subst h2
        exact ⟨hs, sanitizeMermaid_chars substituted⟩

/-! ## Provenance of generated events -/

theorem timestamp_withSeqNum (i : Nat) (e : SequenceEvent) :
    (withSeqNum i e).timestamp = e.timestamp := rfl

theorem timestamp_timingUpdate (y : Nat) (l : List SequenceEvent) (i : Nat)
    (e : SequenceEvent) : (timingUpdate y l i e).timestamp = e.timestamp :=
  congrArg (fun t => t.1) (eventCore_timingUpdate y l i e)

theorem getElem?_enrich (y : Nat) (S : List SequenceEvent) (j : Nat) :
    (enrichEventsWithMetadata y S)[j]? =
      S[j]?.map (fun e => timingUpdate y (addSequenceNumbers S) j (withSeqNum j e)) := by
  rw [enrichEventsWithMetadata, getElem?_addTimingInfo, getElem?_addSequenceNumbers,
    Option.map_map]
  rfl

/-- Every event collected by the matching pass has exactly the creation-time
metadata: no enrichment keys yet. -/
theorem base_meta_of_mem_collected (ts : List Template) (es : List LogEntry)
    (ev : SequenceEvent) (h : ev ∈ (generateEventsAndUnmatched ts es).1) :
    dictGet ev.metadata "sequence_number" = none ∧
    dictGet ev.metadata "time_since_previous" = none := by
  rw [fst_generateEvents] at h
  rcases List.mem_filterMap.mp h with ⟨e, _, htry⟩
  rcases tryTemplates_some e ts ev htry with ⟨t, _, groups, _, hc⟩
  rcases createSequenceEvent_facts e t groups ev hc with
    ⟨_, _, _, _, _, _, _, _, _, _, _, _, _, _, h14, h15⟩
  exact ⟨h14, h15⟩

/-- Any event in the final output originates from one record and one
matching template; its core fields and its non-enrichment metadata keys are
those of the created event. -/
theorem mem_generate_source (year : Nat) (log_entries : List LogEntry)
    (templates : List Template) (ev : SequenceEvent)
    (h : ev ∈ generate_sequence_events year log_entries templates) :
    ∃ entry ∈ log_entries, ∃ t ∈ templates, ∃ groups ev0,
      Regex.search t.pattern entry.message = some groups ∧
      createSequenceEvent entry t groups = some ev0 ∧
      eventCore ev = eventCore ev0 ∧
      ∀ k, k ≠ "sequence_number" → k ≠ "time_since_previous" →
        dictGet ev.metadata k = dictGet ev0.metadata k := by
  have h2 : ev ∈ enrichEventsWithMetadata year
      (stableSortBy eventLe
        ((generateEventsAndUnmatched (stableSortBy templateLe templates)
          log_entries).1)) := h
  rcases source_of_mem_enrich _ _ _ h2 with ⟨e0, he0, hcore, hkeys⟩
  have he1 : e0 ∈ (generateEventsAndUnmatched (stableSortBy templateLe templates)
      log_entries).1 := (mem_stableSortBy eventLe e0 _).mp he0
  rw [fst_generateEvents] at he1
  rcases List.mem_filterMap.mp he1 with ⟨entry, hentry, htry⟩
  rcases tryTemplates_some entry _ e0 htry with ⟨t, ht, groups, hsearch, hc⟩
  exact ⟨entry, hentry, t, (mem_stableSortBy templateLe t templates).mp ht, groups, e0,
    hsearch, hc, hcore, hkeys⟩

/-! ## Year-(in)dependence of the output -/

theorem map_g_enumFromMap {β : Type} (g : SequenceEvent → β)
    (f : Nat × SequenceEvent → SequenceEvent)
    (hf : ∀ p, g (f p) = g p.2) :
    ∀ (n : Nat) (l : List SequenceEvent),
      ((List.enumFrom n l).map f).map g = l.map g := by
  intro n l
  induction l generalizing n with
  | nil => rfl
  | cons a l2 ih =>
    show g (f (n, a)) :: ((List.enumFrom (n + 1) l2).map f).map g = g a :: l2.map g
    rw [hf ⟨n, a⟩, ih (n + 1)]

theorem stripTiming_timingUpdate (y : Nat) (l : List SequenceEvent) (i : Nat)
    (e : SequenceEvent) : stripTiming (timingUpdate y l i e) = stripTiming e := by
  rw [timingUpdate]
  split
  · rfl
  · cases hprev : l[i - 1]? with
    | none => rfl
    | some prev =>
      cases hpt : parseTimestamp y prev.timestamp with
      | none => simp only [hpt]
      | some pt =>
        cases hct : parseTimestamp y e.timestamp with
        | none => simp only [hpt, hct]
        | some ct =>
          simp only [hpt, hct]
          rw [stripTiming, stripTiming]
          rw [show ({ e with metadata :=
              (dictSet e.metadata "time_since_previous"
                (.float (timeDeltaMicros y pt ct))) } : SequenceEvent).metadata
            = dictSet e.metadata "time_since_previous"
                (.float (timeDeltaMicros y pt ct)) from rfl,
            filter_dictSet_key]

theorem map_stripTiming_enrich (y : Nat) (S : List SequenceEvent) :
    (enrichEventsWithMetadata y S).map stripTiming
      = (addSequenceNumbers S).map stripTiming := by
  rw [enrichEventsWithMetadata, addTimingInfo]
  exact map_g_enumFromMap stripTiming _
    (fun p => stripTiming_timingUpdate y _ p.1 p.2) 0 _

/-! # Claim theorems -/

/-- C1 as stated is false on the code: the selected template need not be
the first match under the priority sort, because a matching template's
event construction can raise and the loop then falls through to a later
template.  Concretely: `tmplAltGroup` (priority 1, pattern `(z)|b`, dict
mapping) matches message `"b"` first under the sort, but `match.groups()`
is `(None,)` and the unconditional alias `str.replace` with the `None`
group raises `TypeError` (caught), so the event comes from `tmplPlainB`
(priority 2) and its `event_type` is `"Second"`, not `"First"`. -/
theorem claim_C1_counterexample :
    (∀ t ∈ [tmplAltGroup, tmplPlainB], t.sequence_mapping.isSome = true) ∧
    Regex.search tmplAltGroup.pattern entryB.message = some [none] ∧
    createSequenceEvent entryB tmplAltGroup [none] = none ∧
    (selectTemplate entryB.message [tmplAltGroup, tmplPlainB]).map (fun t => t.name)
      = some "First" ∧
    (generate_sequence_events 2025 [entryB] [tmplAltGroup, tmplPlainB]).map
      (fun v => v.event_type) = ["Second"] := by
  refine ⟨by decide, by decide, by decide, by decide, by decide⟩

/-- C1 (amended): the template selected for a record - the one whose name
becomes the event's `event_type` - is the first template, under the stable
ascending priority sort, whose pattern matches **and** whose event
construction succeeds (construction fails when the mapping is not a dict,
or when a capture group that did not participate in the match reaches the
alias replacements).  In particular, under the loader precondition (every
`sequence_mapping` a dict) and whenever every capture group of every match
participates, it is exactly the first match: a matching template with a
lower priority number beats any matching template with a higher priority
number regardless of input order, and among matching templates of equal
priority the one earlier in the original input order wins.  Matching is
`Regex.search`, the unanchored search. -/
theorem claim_C1_first_match_by_priority (templates : List Template) (e : LogEntry)
    (hwf : ∀ t ∈ templates, t.sequence_mapping.isSome = true)
    (hpart : ∀ t ∈ templates,
      ∀ g ∈ (Regex.search t.pattern e.message).getD [], g.isSome = true) :
    ((tryTemplates e (stableSortBy templateLe templates)).map (fun v => v.event_type)
      = ((stableSortBy templateLe templates).find? (fun t =>
          ((Regex.search t.pattern e.message).bind
            (createSequenceEvent e t)).isSome)).map (fun t => t.name)) ∧
    ((tryTemplates e (stableSortBy templateLe templates)).map (fun v => v.event_type)
      = (selectTemplate e.message templates).map (fun t => t.name)) ∧
    ∀ t, selectTemplate e.message templates = some t →
      t ∈ templates ∧ (Regex.search t.pattern e.message).isSome = true := by
  refine ⟨tryTemplates_map_eventType e _, ?_, ?_⟩
  · rw [tryTemplates_map_eventType e _]
    have hcongr : (stableSortBy templateLe templates).find? (fun t =>
          ((Regex.search t.pattern e.message).bind (createSequenceEvent e t)).isSome)
        = (stableSortBy templateLe templates).find? (fun t =>
          (Regex.search t.pattern e.message).isSome) := by
      apply find?_congr_mem
      intro t ht
      have htm : t ∈ templates := (mem_stableSortBy templateLe t templates).mp ht
      cases hs : Regex.search t.pattern e.message with
      | none => rfl
      | some groups =>
        have hg : ∀ g ∈ groups, g.isSome = true := by
          have hp := hpart t htm
          rw [hs] at hp
          exact hp
        have hcs := createSequenceEvent_isSome e t groups (hwf t htm) hg
        show (createSequenceEvent e t groups).isSome = (some groups).isSome
        rw [hcs]
        rfl
    rw [hcongr,
      find?_stableSortBy templateLe _ templateLe_total templateLe_trans templates]
    rfl
  · intro t h
    exact bestEarliest_sound templateLe _ templates t h

/-- Witness for C1 (amended) at the P2 fixture: templates `[Low(5),
High(1)]`, both matching message `"x"` with no capture groups; the
selected event type is `"High"`. -/
theorem claim_C1_witness :
    ((∀ t ∈ [tmplLow, tmplHigh], t.sequence_mapping.isSome = true) ∧
      ∀ t ∈ [tmplLow, tmplHigh],
        ∀ g ∈ (Regex.search t.pattern entryX.message).getD [], g.isSome = true) ∧
    ((tryTemplates entryX (stableSortBy templateLe [tmplLow, tmplHigh])).map
        (fun v => v.event_type)
      = (selectTemplate entryX.message [tmplLow, tmplHigh]).map (fun t => t.name)) ∧
    (selectTemplate entryX.message [tmplLow, tmplHigh]).map (fun t => t.name)
      = some "High" :=
  ⟨⟨by decide, by decide⟩,
   (claim_C1_first_match_by_priority [tmplLow, tmplHigh] entryX (by decide)
     (by decide)).2.1,
   by decide⟩

/-- C4 as stated is false on the code: the claim's pipeline strips every
character that is not alphanumeric, whitespace or hyphen, but Python `\w`
also keeps underscores; on mapping `"_"` the code returns `"_"` while the
claim's pipeline returns `"Unknown"`. -/
theorem claim_C4_counterexample :
    mapEntity "_" [] = "_" ∧ mapEntityClaimC4 "_" [] = "Unknown" ∧
    ("_" : String) ≠ "Unknown" := by
  refine ⟨by decide, by decide, by decide⟩

/-- C4 (amended: underscores are also kept by the strip): the Entity Mapper
result equals the amended pipeline - keep alphanumerics, underscores,
whitespace and hyphens, then trim and collapse whitespace runs to single
underscores (= split on whitespace and join with `"_"`) - with the literal
`"Unknown"` returned for an empty mapping string (substitution skipped) or
an empty post-sanitization result; e.g. `"Camera Service!!"` maps to
`"Camera_Service"`. -/
theorem claim_C4_sanitization_amended :
    ∀ (mapping : String) (groups : List String),
      mapEntity mapping groups = mapEntityAmendedC4 mapping groups ∧
      mapEntity "" groups = "Unknown" ∧
      mapEntity "Camera Service!!" [] = "Camera_Service" :=
  fun mapping groups =>
    ⟨mapEntity_eq_amendedC4 mapping groups, rfl, by decide⟩

/-- C5: placeholder substitution first replaces each `{groupN}` (1-based)
whose group exists by the captured value - a placeholder whose N exceeds
the group count is left unresolved - then replaces the four legacy aliases
by groups 1-4, substituting `""` for a missing group; the code's guarded
loop equals the spec-worded unconditional recursion (`substFullSpec`), and
on groups `["CameraApp", "open"]` the mapping `"{group1}_{group2}"` yields
`"CameraApp_open"` before sanitization. -/
theorem claim_C5_substitution :
    ∀ (mapping : String) (groups : List String),
      substFull mapping groups = substFullSpec mapping groups ∧
      substFull "\x7bgroup1\x7d_\x7bgroup2\x7d" ["CameraApp", "open"]
        = "CameraApp_open" ∧
      substFull "\x7bgroup3\x7d" ["a", "b"] = "\x7bgroup3\x7d" ∧
      substFull "\x7btimestamp\x7d.\x7blevel\x7d" ["T"] = "T." :=
  fun mapping groups =>
    ⟨substFull_eq_spec mapping groups, by decide, by decide, by decide⟩

/-- C7: the generator returns a (possibly empty) sequence and treats
data-quality issues without raising: a record whose message matches no
template is counted in the unmatched list and produces no event, and when
no record matches any template the result is the empty sequence.  (The
embedding is total, so no exception can model-theoretically escape.) -/
theorem claim_C7_no_match_dropped (year : Nat) (log_entries : List LogEntry)
    (templates : List Template) :
    (∀ e ∈ log_entries,
      (∀ t ∈ templates, Regex.search t.pattern e.message = none) →
      tryTemplates e (stableSortBy templateLe templates) = none ∧
      e ∈ (generateEventsAndUnmatched (stableSortBy templateLe templates)
        log_entries).2) ∧
    ((∀ e ∈ log_entries, ∀ t ∈ templates, Regex.search t.pattern e.message = none) →
      generate_sequence_events year log_entries templates = []) := by
  constructor
  · intro e he hnm
    have hnone : tryTemplates e (stableSortBy templateLe templates) = none :=
      tryTemplates_none e _
        (fun t ht => hnm t ((mem_stableSortBy templateLe t templates).mp ht))
    exact ⟨hnone, mem_unmatched _ e hnone log_entries he⟩
  · intro hall
    have hfm : (generateEventsAndUnmatched (stableSortBy templateLe templates)
        log_entries).1 = [] := by
      rw [fst_generateEvents, List.filterMap_eq_nil]
      intro e he
      exact tryTemplates_none e _
        (fun t ht => hall e he t ((mem_stableSortBy templateLe t templates).mp ht))
    show enrichEventsWithMetadata year (stableSortBy eventLe _) = []
    rw [hfm]
    rfl

/-- Witness for C7 at the P3 fixture: template pattern `"zzz"`, record
message `"abc"`: the record lands in the unmatched list and the generator
returns the empty sequence. -/
theorem claim_C7_witness :
    (tryTemplates entryAbc (stableSortBy templateLe [tmplZzz]) = none ∧
      entryAbc ∈ (generateEventsAndUnmatched (stableSortBy templateLe [tmplZzz])
        [entryAbc]).2) ∧
    generate_sequence_events 2025 [entryAbc] [tmplZzz] = [] :=
  ⟨(claim_C7_no_match_dropped 2025 [entryAbc] [tmplZzz]).1 entryAbc (by decide)
      (by decide),
   (claim_C7_no_match_dropped 2025 [entryAbc] [tmplZzz]).2 (by decide)⟩

/-- C8 as stated is false on the code: when event construction raises for
the first matching template, the template loop does **not** stop - it goes
on to lower-priority templates, so the record can still produce an event.
Here `tmplBroken` (priority 1, malformed mapping) matches `"x"` and its
construction fails, yet the output contains an event from `tmplFallback`. -/
theorem claim_C8_counterexample :
    (Regex.search tmplBroken.pattern entryX.message).isSome = true ∧
    createSequenceEvent entryX tmplBroken
      ((Regex.search tmplBroken.pattern entryX.message).getD []) = none ∧
    (generate_sequence_events 2025 [entryX] [tmplBroken, tmplFallback]).map
      (fun v => v.event_type) = ["Fallback"] := by
  refine ⟨by decide, by decide, by decide⟩

/-- C8 (amended): a per-record construction failure is caught - the record
is not re-raised and the pass is not aborted; the generator then tries the
remaining (later-in-sorted-order) templates for the same record, and only
if none succeeds is the record counted unmatched with no event; the
remaining records are processed either way. -/
theorem claim_C8_mapping_failure_amended (e : LogEntry) (t : Template)
    (ts : List Template) (groups : List (Option String))
    (hm : Regex.search t.pattern e.message = some groups)
    (hf : createSequenceEvent e t groups = none) :
    tryTemplates e (t :: ts) = tryTemplates e ts ∧
    (tryTemplates e (t :: ts) = none →
      ∀ es : List LogEntry,
        (generateEventsAndUnmatched (t :: ts) (e :: es)).1
          = (generateEventsAndUnmatched (t :: ts) es).1 ∧
        e ∈ (generateEventsAndUnmatched (t :: ts) (e :: es)).2) := by
  constructor
  · simp only [tryTemplates, hm, hf]
  · intro hnone es
    constructor
    · simp only [generateEventsAndUnmatched, hnone]
    · simp only [generateEventsAndUnmatched, hnone]
      exact List.mem_cons_self e _

/-- Witness for C8 (amended) at the broken-template fixture. -/
theorem claim_C8_witness :
    tryTemplates entryX [tmplBroken] = tryTemplates entryX [] ∧
    (generateEventsAndUnmatched [tmplBroken] [entryX]).1
      = (generateEventsAndUnmatched [tmplBroken] []).1 ∧
    entryX ∈ (generateEventsAndUnmatched [tmplBroken] [entryX]).2 := by
  have h := claim_C8_mapping_failure_amended entryX tmplBroken [] []
    (by decide) (by decide)
  exact ⟨h.1, (h.2 (by decide) []).1, (h.2 (by decide) []).2⟩

/-- C9 as stated is false on the code: `_parse_timestamp` reads the ambient
clock year (`datetime.now().year`), so the output depends on external
mutable state; with records spanning Feb 28 - Mar 1, the same inputs give
a `time_since_previous` of 2 days when the call happens in 2024 (leap) and
1 day in 2023. -/
theorem claim_C9_counterexample :
    generate_sequence_events 2024 entriesLeap [tmplCam]
      ≠ generate_sequence_events 2023 entriesLeap [tmplCam] := by
  decide

/-- C9 (amended): the generator is a pure function of its arguments **and
the current clock year**; everything in the output except the
`time_since_previous` metadata entry is independent of that year. -/
theorem claim_C9_purity_amended (year1 year2 : Nat) (log_entries : List LogEntry)
    (templates : List Template) :
    (generate_sequence_events year1 log_entries templates).map stripTiming
      = (generate_sequence_events year2 log_entries templates).map stripTiming := by
  show (enrichEventsWithMetadata year1 _).map stripTiming
    = (enrichEventsWithMetadata year2 _).map stripTiming
  rw [map_stripTiming_enrich, map_stripTiming_enrich]

/-- C2: the returned sequence is sorted ascending by the event timestamp
compared as a string, and the sort is stable: restricted to any one
timestamp value, the output (projected to its non-metadata core, which
includes the originating record) coincides with the pre-sort event list,
which is in input-record order. -/
theorem claim_C2_sorted_stable (year : Nat) (log_entries : List LogEntry)
    (templates : List Template) :
    (generate_sequence_events year log_entries templates).Pairwise
      (fun a b => strLeB a.timestamp b.timestamp = true) ∧
    ∀ c : String,
      ((generate_sequence_events year log_entries templates).map eventCore).filter
          (fun x => x.1 = c) =
        ((log_entries.filterMap (fun e =>
            tryTemplates e (stableSortBy templateLe templates))).map eventCore).filter
          (fun x => x.1 = c) := by
  have hw : generate_sequence_events year log_entries templates
      = enrichEventsWithMetadata year
        (stableSortBy eventLe
          ((generateEventsAndUnmatched (stableSortBy templateLe templates)
            log_entries).1)) := rfl
  constructor
  · rw [hw]
    have hpS := pairwise_stableSortBy eventLe eventLe_total eventLe_trans
      ((generateEventsAndUnmatched (stableSortBy templateLe templates) log_entries).1)
    have h1 : ((enrichEventsWithMetadata year
        (stableSortBy eventLe
          ((generateEventsAndUnmatched (stableSortBy templateLe templates)
            log_entries).1))).map eventCore).Pairwise
        (fun x y => strLeB x.1 y.1 = true) := by
      rw [map_eventCore_enrich]
      exact List.pairwise_map.mpr hpS
    exact List.pairwise_map.mp h1
  · intro c
    rw [hw, map_eventCore_enrich, fst_generateEvents, List.filter_map, List.filter_map]
    congr 1
    apply filter_stableSortBy eventLe
    intro x y hx hy
    have hxc : x.timestamp = c := of_decide_eq_true hx
    have hyc : y.timestamp = c := of_decide_eq_true hy
    exact sLt_eventLe_of_eq_ts x y (hxc.trans hyc.symm)

/-- C3 as stated is false on the code: the timing metadata key is
`time_since_previous`, not `time_since_previous_seconds`; on the P9
fixture the second event carries the former and not the latter. -/
theorem claim_C3_counterexample :
    dictGet (((generate_sequence_events 2025 entriesP9 [tmplCam])[1]?).getD
      dummyEvent).metadata "time_since_previous_seconds" = none ∧
    dictGet (((generate_sequence_events 2025 entriesP9 [tmplCam])[1]?).getD
      dummyEvent).metadata "time_since_previous" = some (.float 500000) ∧
    (generate_sequence_events 2025 entriesP9 [tmplCam]).length = 3 := by
  refine ⟨by decide, by decide, by decide⟩

/-- C3 (amended: the timing key is `time_since_previous`, storing the
seconds value exactly as integer microseconds): after the sort, every
event's metadata gets `sequence_number` = its 1-based position; for every
event except the first, when both its own and the preceding event's
timestamps parse (fixed format `MM-DD HH:MM:SS.mmm`, current clock year),
`time_since_previous` is set to the signed duration between them; when
either fails to parse the key is absent, and it is always absent on the
first event. -/
theorem claim_C3_enrichment (year : Nat) (log_entries : List LogEntry)
    (templates : List Template) (i : Nat) (ei : SequenceEvent)
    (hi : (generate_sequence_events year log_entries templates)[i]? = some ei) :
    dictGet ei.metadata "sequence_number" = some (.int (i + 1)) ∧
    (i = 0 → dictGet ei.metadata "time_since_previous" = none) ∧
    (∀ eprev, 1 ≤ i →
      (generate_sequence_events year log_entries templates)[i - 1]? = some eprev →
      (∀ pt ct, parseTimestamp year eprev.timestamp = some pt →
        parseTimestamp year ei.timestamp = some ct →
        dictGet ei.metadata "time_since_previous"
          = some (.float (timeDeltaMicros year pt ct))) ∧
      ((parseTimestamp year eprev.timestamp = none ∨
          parseTimestamp year ei.timestamp = none) →
        dictGet ei.metadata "time_since_previous" = none)) := by
  have hout : ∀ j, (generate_sequence_events year log_entries templates)[j]? =
      (stableSortBy eventLe
        ((generateEventsAndUnmatched (stableSortBy templateLe templates)
          log_entries).1))[j]?.map
        (fun e => timingUpdate year
          (addSequenceNumbers (stableSortBy eventLe
            ((generateEventsAndUnmatched (stableSortBy templateLe templates)
              log_entries).1))) j (withSeqNum j e)) :=
    fun j => getElem?_enrich year _ j
  rw [hout i] at hi
  rcases Option.map_eq_some'.mp hi with ⟨si, hsi, hfi⟩
  have hmem : si ∈ stableSortBy eventLe
      ((generateEventsAndUnmatched (stableSortBy templateLe templates)
        log_entries).1) := by
    rcases List.getElem?_eq_some.mp hsi with ⟨hlt, hel⟩
    rw [← hel]
    exact List.getElem_mem hlt
  have hbase := base_meta_of_mem_collected _ _ si
    ((mem_stableSortBy eventLe si _).mp hmem)
  refine ⟨?_, ?_, ?_⟩
  · rw [← hfi, dictGet_timingUpdate_ne _ _ _ _ _ (by decide)]
    simp only [withSeqNum]
    exact dictGet_dictSet_self _ _ _
  · intro h0
    subst h0
    rw [← hfi, show timingUpdate year
        (addSequenceNumbers (stableSortBy eventLe
          ((generateEventsAndUnmatched (stableSortBy templateLe templates)
            log_entries).1))) 0 (withSeqNum 0 si) = withSeqNum 0 si from by
      rw [timingUpdate, if_pos rfl],
      dictGet_withSeqNum_ne _ _ _ (by decide)]
    exact hbase.2
  · intro eprev h1i hprev
    rw [hout (i - 1)] at hprev
    rcases Option.map_eq_some'.mp hprev with ⟨sp, hsp, hfp⟩
    have hA : (addSequenceNumbers (stableSortBy eventLe
        ((generateEventsAndUnmatched (stableSortBy templateLe templates)
          log_entries).1)))[i - 1]? = some (withSeqNum (i - 1) sp) := by
      rw [getElem?_addSequenceNumbers, hsp]
      rfl
    have htsprev : eprev.timestamp = sp.timestamp := by
      rw [← hfp, timestamp_timingUpdate, timestamp_withSeqNum]
    have htsi : ei.timestamp = si.timestamp := by
      rw [← hfi, timestamp_timingUpdate, timestamp_withSeqNum]
    have hne0 : ¬ (i = 0) := by omega
    constructor
    · intro pt ct hptp hctp
      rw [htsprev] at hptp
      rw [htsi] at hctp
      rw [← hfi, timingUpdate, if_neg hne0, hA]
      simp only [timestamp_withSeqNum, hptp, hctp]
      simp only [withSeqNum]
      exact dictGet_dictSet_self _ _ _
    · intro hnone
      rw [← hfi, timingUpdate, if_neg hne0, hA]
      rcases hnone with hn | hn
      · rw [htsprev] at hn
        simp only [timestamp_withSeqNum, hn]
        rw [dictGet_withSeqNum_ne _ _ _ (by decide)]
        exact hbase.2
      · rw [htsi] at hn
        cases hpp : parseTimestamp year sp.timestamp with
        | none =>
          simp only [timestamp_withSeqNum, hpp, hn]
          rw [dictGet_withSeqNum_ne _ _ _ (by decide)]
          exact hbase.2
        | some pt0 =>
          simp only [timestamp_withSeqNum, hpp, hn]
          rw [dictGet_withSeqNum_ne _ _ _ (by decide)]
          exact hbase.2

/-- Witness for C3 (amended) at the P9 fixture: the second event carries
`sequence_number` 2 and a `time_since_previous` of exactly half a second
(500000 microseconds). -/
theorem claim_C3_witness :
    dictGet (((generate_sequence_events 2025 entriesP9 [tmplCam])[1]?).getD
      dummyEvent).metadata "sequence_number" = some (.int 2) ∧
    dictGet (((generate_sequence_events 2025 entriesP9 [tmplCam])[1]?).getD
      dummyEvent).metadata "time_since_previous" = some (.float 500000) := by
  have h := claim_C3_enrichment 2025 entriesP9 [tmplCam] 1
    (((generate_sequence_events 2025 entriesP9 [tmplCam])[1]?).getD dummyEvent)
    (by decide)
  refine ⟨h.1.trans (by decide), ?_⟩
  have h2 := (h.2.2 (((generate_sequence_events 2025 entriesP9 [tmplCam])[0]?).getD
      dummyEvent) (by decide) (by decide)).1
    { month := 9, day := 17, hour := 10, minute := 30, second := 15, micro := 0 }
    { month := 9, day := 17, hour := 10, minute := 30, second := 15, micro := 500000 }
    (by decide) (by decide)
  exact h2.trans (by decide)

/-- C6 as stated is false on the code: the captured groups are stored
under the metadata key `groups`, not `matched_groups`; the event produced
for the `"x"` record has no `matched_groups` entry. -/
theorem claim_C6_counterexample :
    (generate_sequence_events 2025 [entryX] [tmplHigh]).length = 1 ∧
    dictGet (((generate_sequence_events 2025 [entryX] [tmplHigh])[0]?).getD
      dummyEvent).metadata "matched_groups" = none := by
  refine ⟨by decide, by decide⟩

/-- C6 (amended: the captured groups are stored under the key `groups`):
every produced event's metadata contains `template_name` (matched
template's name), `template_priority`, `log_level` (the record's severity
value), `log_tag`, and `groups` (the ordered `match.groups()` tuple, with
`none` for a group that did not participate); the event's type is the
template's name and it back-references the record. -/
theorem claim_C6_metadata_keys_amended (year : Nat) (log_entries : List LogEntry)
    (templates : List Template) (ev : SequenceEvent)
    (h : ev ∈ generate_sequence_events year log_entries templates) :
    ∃ entry ∈ log_entries, ∃ t ∈ templates, ∃ groups,
      Regex.search t.pattern entry.message = some groups ∧
      ev.event_type = t.name ∧ ev.log_entry = some entry ∧
      dictGet ev.metadata "template_name" = some (.str t.name) ∧
      dictGet ev.metadata "template_priority" = some (.int t.priority) ∧
      dictGet ev.metadata "log_level" = some (.str entry.level.value) ∧
      dictGet ev.metadata "log_tag" = some (.str entry.tag) ∧
      dictGet ev.metadata "groups" = some (.strList groups) := by
  rcases mem_generate_source year log_entries templates ev h with
    ⟨entry, hentry, t, ht, groups, ev0, hsearch, hc, hcore, hkeys⟩
  rcases createSequenceEvent_facts entry t groups ev0 hc with
    ⟨sm, hsm, hts, hfrom, hto, hmsg, htype, hlog, hd1, hd2, hd3, hd4, hd5, _, _, _⟩
  refine ⟨entry, hentry, t, ht, groups, hsearch, ?_, ?_, ?_, ?_, ?_, ?_, ?_⟩
  · exact (congrArg (fun x => x.2.2.2.2.1) hcore).trans htype
  · exact (congrArg (fun x => x.2.2.2.2.2) hcore).trans hlog
  · rw [hkeys _ (by decide) (by decide)]
    exact hd1
  · rw [hkeys _ (by decide) (by decide)]
    exact hd2
  · rw [hkeys _ (by decide) (by decide)]
    exact hd3
  · rw [hkeys _ (by decide) (by decide)]
    exact hd4
  · rw [hkeys _ (by decide) (by decide)]
    exact hd5

/-- Witness for C6 (amended) on the `"x"`-record fixture. -/
theorem claim_C6_witness :
    ∃ entry ∈ [entryX], ∃ t ∈ [tmplHigh], ∃ groups,
      Regex.search t.pattern entry.message = some groups ∧
      (((generate_sequence_events 2025 [entryX] [tmplHigh])[0]?).getD
        dummyEvent).event_type = t.name ∧
      (((generate_sequence_events 2025 [entryX] [tmplHigh])[0]?).getD
        dummyEvent).log_entry = some entry ∧
      dictGet (((generate_sequence_events 2025 [entryX] [tmplHigh])[0]?).getD
        dummyEvent).metadata "template_name" = some (.str t.name) ∧
      dictGet (((generate_sequence_events 2025 [entryX] [tmplHigh])[0]?).getD
        dummyEvent).metadata "template_priority" = some (.int t.priority) ∧
      dictGet (((generate_sequence_events 2025 [entryX] [tmplHigh])[0]?).getD
        dummyEvent).metadata "log_level" = some (.str entry.level.value) ∧
      dictGet (((generate_sequence_events 2025 [entryX] [tmplHigh])[0]?).getD
        dummyEvent).metadata "log_tag" = some (.str entry.tag) ∧
      dictGet (((generate_sequence_events 2025 [entryX] [tmplHigh])[0]?).getD
        dummyEvent).metadata "groups" = some (.strList groups) :=
  claim_C6_metadata_keys_amended 2025 [entryX] [tmplHigh]
    (((generate_sequence_events 2025 [entryX] [tmplHigh])[0]?).getD dummyEvent)
    (by decide)

/-- C10: every emitted event's `from_entity`, `to_entity` and `message`
are non-empty, contain no whitespace, and use only letters, digits,
underscore and hyphen (sanitization plus the `"Unknown"` fallback). -/
theorem claim_C10_safe_identifiers (year : Nat) (log_entries : List LogEntry)
    (templates : List Template) (ev : SequenceEvent)
    (h : ev ∈ generate_sequence_events year log_entries templates) :
    isSafeIdent ev.from_entity ∧ isSafeIdent ev.to_entity ∧ isSafeIdent ev.message := by
  rcases mem_generate_source year log_entries templates ev h with
    ⟨entry, _, t, _, groups, ev0, _, hc, hcore, _⟩
  rcases createSequenceEvent_facts entry t groups ev0 hc with
    ⟨sm, _, _, hfrom, hto, hmsg, _, _, _, _, _, _, _, _, _, _⟩
  refine ⟨?_, ?_, ?_⟩
  · rw [show ev.from_entity = ev0.from_entity from congrArg (fun x => x.2.1) hcore]
    exact mapEntityPy_safe _ _ _ hfrom
  · rw [show ev.to_entity = ev0.to_entity from congrArg (fun x => x.2.2.1) hcore]
    exact mapEntityPy_safe _ _ _ hto
  · rw [show ev.message = ev0.message from congrArg (fun x => x.2.2.2.1) hcore]
    exact mapEntityPy_safe _ _ _ hmsg

/-- Witness for C10 on the `"x"`-record fixture. -/
theorem claim_C10_witness :
    isSafeIdent (((generate_sequence_events 2025 [entryX] [tmplHigh])[0]?).getD
      dummyEvent).from_entity ∧
    isSafeIdent (((generate_sequence_events 2025 [entryX] [tmplHigh])[0]?).getD
      dummyEvent).to_entity ∧
    isSafeIdent (((generate_sequence_events 2025 [entryX] [tmplHigh])[0]?).getD
      dummyEvent).message :=
  claim_C10_safe_identifiers 2025 [entryX] [tmplHigh]
    (((generate_sequence_events 2025 [entryX] [tmplHigh])[0]?).getD dummyEvent)
    (by decide)

end QuickCompare
